import Mathlib

/-!
Verification of the `strapi-migrate` export/import pipeline.

This development is a shallow embedding of the current sources of the
repository (the v5 import module `runImport` / `importMedia` /
`replaceMediaIds` / `simplifyPayload` / `importViews` / `cleanSourceCode`
and the export module `runExport` / `getPopulateFromSchema`), over an
explicit model of the external Strapi content store (entries addressed by
`documentId` and locale, media assets addressed by content hash, an
uploads directory, a view registry and a locale registry).  External store
semantics that the claims rely on (a document keeps a draft row for every
locale; `create` honours a supplied `documentId`; per-operation failures
surface as caught exceptions) are modelled explicitly and flagged in the
doc comments of the corresponding definitions.
-/

set_option maxHeartbeats 1000000

namespace StrapiMigrate

/-- JSON-like values as they occur in the export manifest (`data.json`)
and in entry payloads. -/
inductive Value where
  | null
  | bool (b : Bool)
  | num (n : Int)
  | str (s : String)
  | arr (xs : List Value)
  | obj (fields : List (String × Value))

/-- First-match association lookup, the shallow embedding of reading a
property of a JS object (object keys are unique in JSON, so first match
is the only match). -/
def jsGet (fields : List (String × Value)) (k : String) : Option Value :=
  (fields.find? (fun kv => kv.1 = k)).map (fun kv => kv.2)

/-- JavaScript truthiness of a modelled value (`undefined` is modelled as
a missing key, i.e. `none` at use sites). -/
def truthy : Value → Bool
  | .null => false
  | .bool b => b
  | .num n => n != 0
  | .str s => s != ""
  | .arr _ => true
  | .obj _ => true

/-- Truthiness of an optional field access (`obj.k`): a missing key is
`undefined`, hence falsy. -/
def truthyOpt : Option Value → Bool
  | none => false
  | some v => truthy v

/-- Read a field expected to be a truthy string (the shape of
`documentId` / `locale` fields in manifests produced by the exporter). -/
def getStrField (fields : List (String × Value)) (k : String) : Option String :=
  match jsGet fields k with
  | some (.str s) => if s = "" then none else some s
  | _ => none

/-- `path.basename` for the URL shapes produced by the Strapi upload
plugin (`/uploads/<file>`): the last `/`-separated component. -/
def basename (s : String) : String :=
  (s.splitOn "/").getLastD s

/-- Remove a set of keys from a JS object, the embedding of a destructuring
rest pattern such as `const { id, documentId, ...rawPayload } = item`. -/
def stripKeys (fields : List (String × Value)) (ks : List String) :
    List (String × Value) :=
  fields.filter (fun kv => kv.1 ∉ ks)

/-! ### Media model

Media assets live in the destination store's upload-plugin table; they are
deduplicated by content `hash`.  The physical uploads directory of the
destination and of the extracted archive are modelled as lists of file
basenames. -/

/-- The portable shape of one manifest media item: `id` (source store row
id), content `hash`, `url` pointing at the primary file, and the urls of
the named renditions under `formats` (the code reads
`Object.values(fileData.formats).map(f => f.url)`). -/
structure MediaRef where
  id : Int
  hash : String
  url : String
  formats : List String
deriving DecidableEq, Repr

/-- A destination media asset record, kept to the fields the migration
reads back: the row id and the content hash (the created record also
carries the portable metadata of the source item minus `id`/`related`,
which no claim inspects). -/
structure Asset where
  id : Int
  hash : String
deriving DecidableEq, Repr

/-- A destination entry row: one (documentId, locale) variant of a
document.  `published` records whether a published version exists for
this variant; the draft version always remains addressable, which is the
Strapi v5 Documents Service semantics assumed by the import code. -/
structure StoreEntry where
  rowId : Int
  uid : String
  documentId : String
  locale : Option String
  published : Bool
  payload : Value

/-- The destination store together with its uploads directory, views
key-value store and locale registry. -/
structure Store where
  entries : List StoreEntry
  assets : List Asset
  destFiles : List String
  views : List (String × Value)
  locales : List String
  nextRowId : Int
  nextAssetId : Int

/-- Observable destination operations, recorded as a trace. -/
inductive Op where
  | createEntry (uid : String) (documentId : Option String)
      (locale : Option String) (published : Bool)
  | updateEntry (uid : String) (documentId : String)
      (locale : Option String) (published : Bool)
  | publishEntry (uid : String) (documentId : String) (locale : Option String)
  | deleteEntry (uid : String) (documentId : String)
  | createAsset (id : Int) (hash : String)
  | deleteAsset (id : Int)
  | copyFile (name : String)
  | createView (uid : String)
  | updateView (uid : String)
  | createLocale (code : String)
  | copySource (name : String)
  | deleteSource (name : String)
deriving DecidableEq, Repr

/-- State threaded through one `runImport` process: the destination
store, the process-lifetime `mediaIdMap` (old media id → new media id,
reset at process start because it is a module-level `new Map()`), and the
trace of destination operations performed so far. -/
structure RunSt where
  store : Store
  map : List (Int × Int)
  ops : List Op

/-- `mediaIdMap.get` — the map is modelled as a cons-list where the most
recent `set` is at the head, matching JS `Map` overwrite semantics. -/
def mapGet (m : List (Int × Int)) (k : Int) : Option Int :=
  (m.find? (fun kv => kv.1 = k)).map (fun kv => kv.2)

/-- `strapi.db.query('plugin::upload.file').findOne({ where: { hash } })`. -/
def findAssetByHash (assets : List Asset) (h : String) : Option Asset :=
  assets.find? (fun a => a.hash = h)

/-- The primary-file copy of `importMedia` / JIT creation:
`if (!fs.existsSync(destPath)) fs.copyFileSync(sourcePath, destPath)`. -/
def copyPrimary (r : RunSt) (fileName : String) : RunSt :=
  if fileName ∈ r.store.destFiles then r
  else { r with
    store := { r.store with destFiles := fileName :: r.store.destFiles },
    ops := r.ops ++ [.copyFile fileName] }

/-- The renditions copy loop: for each format url, copy when the source
file exists and the destination file does not. -/
def copyFormats (src : List String) (r : RunSt) : List String → RunSt
  | [] => r
  | furl :: rest =>
      let fName := basename furl
      let r1 :=
        if fName ∈ src ∧ fName ∉ r.store.destFiles then
          { r with
            store := { r.store with destFiles := fName :: r.store.destFiles },
            ops := r.ops ++ [.copyFile fName] }
        else r
      copyFormats src r1 rest

/-- Create the destination asset record (`entityService.create` on
`plugin::upload.file` with the metadata minus `id`/`related`) and record
the id mapping. -/
def createAssetRecord (r : RunSt) (m : MediaRef) : Int × RunSt :=
  let aid := r.store.nextAssetId
  (aid,
    { store := { r.store with
        assets := r.store.assets ++ [{ id := aid, hash := m.hash }],
        nextAssetId := aid + 1 },
      map := (m.id, aid) :: r.map,
      ops := r.ops ++ [.createAsset aid m.hash] })

/-- The just-in-time media resolution performed by `replaceMediaIds` on a
media object (import module, `replaceMediaIds` media branch): (1) the
`mediaIdMap`, (2) destination lookup by content hash, (3) copy from the
extracted `uploads/` directory and create a destination record, (4)
otherwise `null`.  Record creation is the external store's create call;
its failure path is exercised at the orchestration level, not here. -/
def resolveMedia (src : List String) (r : RunSt) (m : MediaRef) :
    Option Int × RunSt :=
  match mapGet r.map m.id with
  | some mapped => (some mapped, r)
  | none =>
    match findAssetByHash r.store.assets m.hash with
    | some existing =>
        (some existing.id, { r with map := (m.id, existing.id) :: r.map })
    | none =>
      let fileName := basename m.url
      if fileName ∈ src then
        let r1 := copyPrimary r fileName
        let r2 := copyFormats src r1 m.formats
        (some (createAssetRecord r2 m).1, (createAssetRecord r2 m).2)
      else
        (none, r)

/-- One iteration of the bulk pre-pass `importMedia` loop (non-dry-run
path): destination lookup by hash, else copy-and-create from the source
uploads directory, else skip.  `createFails` models the caught
`entityService.create` failure (logged, no mapping recorded). -/
def importMediaStep (src : List String) (createFails : Int → Bool)
    (r : RunSt) (f : MediaRef) : RunSt :=
  match findAssetByHash r.store.assets f.hash with
  | some existing => { r with map := (f.id, existing.id) :: r.map }
  | none =>
    let fileName := basename f.url
    if fileName ∈ src then
      let r1 := copyPrimary r fileName
      let r2 := copyFormats src r1 f.formats
      if createFails f.id then r2
      else (createAssetRecord r2 f).2
    else r

/-- Read a property of a value (`v.k`): only objects have properties. -/
def vGet (v : Value) (k : String) : Option Value :=
  match v with
  | .obj fs => jsGet fs k
  | _ => none

/-- The rendition urls read by the copy loops:
`Object.values(fileData.formats)` followed by `path.basename(format.url)`
(a rendition without a `url` throws inside the per-format `try` and is
skipped). -/
def formatsOf (fields : List (String × Value)) : List String :=
  match jsGet fields "formats" with
  | some (.obj gfs) =>
      gfs.filterMap (fun kv =>
        match kv.2 with
        | .obj ffs =>
            match jsGet ffs "url" with
            | some (.str u) => some u
            | _ => none
        | _ => none)
  | _ => []

/-- `isMediaObject(data) && data.id`: an object with truthy `mime`,
`url`, `hash` and `id`.  Ids are modelled as the numbers the store
produces and `url`/`hash` as the strings the upload plugin produces. -/
def mediaRefOf (fields : List (String × Value)) : Option MediaRef :=
  match jsGet fields "url", jsGet fields "hash", jsGet fields "id" with
  | some (.str u), some (.str h), some (.num i) =>
      if truthyOpt (jsGet fields "mime") ∧ u ≠ "" ∧ h ≠ "" ∧ i ≠ 0 then
        some { id := i, hash := h, url := u, formats := formatsOf fields }
      else none
  | _, _, _ => none

mutual

/-- `replaceMediaIds(data, strapi, sourceUploadsDir)`: recursively walk a
payload; a media object is replaced by its resolved destination id (or
`null` when unresolvable), any other object is copied with its `id` key
stripped, arrays and scalars recurse/pass through. -/
def replaceMediaIds (src : List String) : Value → RunSt → Value × RunSt
  | .arr xs, r =>
      let (ys, r1) := replaceMediaList src xs r
      (.arr ys, r1)
  | .obj fs, r =>
      match mediaRefOf fs with
      | some m =>
          match resolveMedia src r m with
          | (some nid, r1) => (.num nid, r1)
          | (none, r1) => (.null, r1)
      | none =>
          let (gs, r1) := replaceMediaFields src fs r
          (.obj gs, r1)
  | v, r => (v, r)

/-- Array case of `replaceMediaIds` (`data.map(item => ...)`). -/
def replaceMediaList (src : List String) :
    List Value → RunSt → List Value × RunSt
  | [], r => ([], r)
  | x :: xs, r =>
      let (y, r1) := replaceMediaIds src x r
      let (ys, r2) := replaceMediaList src xs r1
      (y :: ys, r2)

/-- Object-field loop of `replaceMediaIds`: strip `id` only, keep
`documentId`, recurse into every remaining value. -/
def replaceMediaFields (src : List String) :
    List (String × Value) → RunSt → List (String × Value) × RunSt
  | [], r => ([], r)
  | (k, v) :: rest, r =>
      if k = "id" then replaceMediaFields src rest r
      else
        let (v1, r1) := replaceMediaIds src v r
        let (gs, r2) := replaceMediaFields src rest r1
        ((k, v1) :: gs, r2)

end

/-! ### Schemas and the payload normalizer -/

/-- The attribute kinds `simplifyPayload` and `getPopulateFromSchema`
branch on.  `relation` carries `attribute.target`, `component` carries
`attribute.component`, `dynamiczone` carries `attribute.components`. -/
inductive Attr where
  | scalar
  | relation (target : Option String)
  | component (uid : String)
  | dynamiczone (components : List String)
  | media
deriving DecidableEq, Repr

/-- A content-type or component attribute map (`schema.attributes`). -/
abbrev Schema := List (String × Attr)

/-- `attributes[key]`. -/
def lookupAttr (attrs : Schema) (k : String) : Option Attr :=
  (attrs.find? (fun kv => kv.1 = k)).map (fun kv => kv.2)

/-- `strapi.components[uid]` giving that component's attributes. -/
def jsGetSchema (comps : List (String × Schema)) (k : String) : Option Schema :=
  (comps.find? (fun kv => kv.1 = k)).map (fun kv => kv.2)

/-- The system keys `simplifyPayload` strips when not declared in the
schema. -/
def sysKeys : List String :=
  ["id", "documentId", "createdAt", "updatedAt", "publishedAt",
   "createdBy", "updatedBy", "locale", "localizations"]

/-- The relation `lookupId` closure of `simplifyPayload` pass 2: a number
passes through, otherwise the reference's `documentId || id` is looked up
in the destination table of `attribute.target` and replaced by the found
row's local id; every failure mode yields `null` (drop). -/
def lookupId (entries : List StoreEntry) (target : Option String)
    (v : Value) : Option Int :=
  if truthy v then
    match v with
    | .num n => some n
    | _ =>
        let docId :=
          match vGet v "documentId" with
          | some dv => if truthy dv then some dv else vGet v "id"
          | none => vGet v "id"
        match docId with
        | some dv =>
            if truthy dv then
              match dv, target with
              | .str s, some t =>
                  if t ≠ "" then
                    (entries.find? (fun e => e.uid = t ∧ e.documentId = s)).map
                      (fun e => e.rowId)
                  else none
              | _, _ => none
            else none
        | none => none
  else none

/-- Pass-2 handling of a many-valued relation:
`resolved.filter(v => !!v)` over `value.map(v => lookupId(v))`. -/
def resolveRelArray (entries : List StoreEntry) (target : Option String)
    (vs : List Value) : List Value :=
  (vs.map (lookupId entries target)).filterMap (fun res =>
    match res with
    | some n => if n ≠ 0 then some (.num n) else none
    | none => none)

/-- `{...simplified, __component: componentUid}`. -/
def setComp (v : Value) (cu : String) : Value :=
  match v with
  | .obj gs => .obj (stripKeys gs ["__component"] ++ [("__component", .str cu)])
  | w => w

mutual

/-- `simplifyPayload(data, attributes, strapi, stripRelations)`: traverse
a payload against its schema; pass 1 (`strip = true`) discards relation
attributes, pass 2 resolves them to destination row ids. -/
def simplifyPayload (comps : List (String × Schema))
    (entries : List StoreEntry) (strip : Bool) :
    Value → Schema → Value
  | .arr xs, attrs => .arr (simplifyItems comps entries strip xs attrs)
  | .obj fs, attrs => .obj (simplifyFields comps entries strip fs attrs)
  | v, _ => v

/-- Top-level array case of `simplifyPayload`: a dynamic-zone item (with
truthy `__component`) is simplified against its component schema and
re-tagged; any other item recurses with the parent attributes. -/
def simplifyItems (comps : List (String × Schema))
    (entries : List StoreEntry) (strip : Bool) :
    List Value → Schema → List Value
  | [], _ => []
  | x :: xs, attrs =>
      let y :=
        match vGet x "__component" with
        | some cv =>
            if truthy cv then
              match cv with
              | .str cu =>
                  match jsGetSchema comps cu with
                  | some cattrs =>
                      setComp (simplifyPayload comps entries strip x cattrs) cu
                  | none => x
              | _ => x
            else simplifyPayload comps entries strip x attrs
        | none => simplifyPayload comps entries strip x attrs
      y :: simplifyItems comps entries strip xs attrs

/-- The dynamic-zone branch of `simplifyPayload`: per item, simplify
against the schema selected by its `__component` tag (item returned
unchanged when the component model is unknown). -/
def simplifyDZItems (comps : List (String × Schema))
    (entries : List StoreEntry) (strip : Bool) :
    List Value → List Value
  | [] => []
  | x :: xs =>
      let y :=
        match vGet x "__component" with
        | some (.str cu) =>
            match jsGetSchema comps cu with
            | some cattrs =>
                setComp (simplifyPayload comps entries strip x cattrs) cu
            | none => x
        | _ => x
      y :: simplifyDZItems comps entries strip xs

/-- The body of the `for (const key of Object.keys(data))` loop of
`simplifyPayload`: `some w` when the key is kept with value `w`, `none`
when the key is dropped (system keys and unknown object-valued keys;
stripped relations; unresolved relations; falsy/unknown components;
non-array dynamic zones). -/
def simplifyField? (comps : List (String × Schema))
    (entries : List StoreEntry) (strip : Bool) (attrs : Schema)
    (key : String) (value : Value) : Option Value :=
  match lookupAttr attrs key with
  | none =>
      if key ∈ sysKeys then none
      else
        match value with
        | .obj _ => none
        | .arr _ => none
        | _ => some value
  | some .scalar => some value
  | some .media => some value
  | some (.relation target) =>
      if strip then none
      else
        match value with
        | .arr vs => some (.arr (resolveRelArray entries target vs))
        | .num n =>
            if n ≠ 0 then
              match lookupId entries target (.num n) with
              | some rid => if rid ≠ 0 then some (.num rid) else none
              | none => none
            else none
        | .obj ofs =>
            match lookupId entries target (.obj ofs) with
            | some rid => if rid ≠ 0 then some (.num rid) else none
            | none => none
        | _ => none
  | some (.component cuid) =>
      match jsGetSchema comps cuid with
      | some cattrs =>
          if truthy value then
            some (simplifyPayload comps entries strip value cattrs)
          else none
      | none => none
  | some (.dynamiczone _) =>
      match value with
      | .arr vs => some (.arr (simplifyDZItems comps entries strip vs))
      | _ => none

/-- The object-key loop of `simplifyPayload`, one `simplifyField?` step
per key. -/
def simplifyFields (comps : List (String × Schema))
    (entries : List StoreEntry) (strip : Bool) :
    List (String × Value) → Schema → List (String × Value)
  | [], _ => []
  | (key, value) :: rest, attrs =>
      match simplifyField? comps entries strip attrs key value with
      | some w => (key, w) :: simplifyFields comps entries strip rest attrs
      | none => simplifyFields comps entries strip rest attrs

end

/-! ### Export: population plan builder (`getPopulateFromSchema`) -/

mutual

/-- The values a populate node's field can take: `true` (media/relation),
`{ populate: ... }` (component), `{ on: {...} }` (dynamic zone). -/
inductive PopVal where
  | flag
  | pop (p : Populate)
  | on (branches : List (String × Populate))

/-- The shape of the populate object built by `getPopulateFromSchema`:
the string `'*'`, the value `true`, or a keyed node. -/
inductive Populate where
  | star
  | all
  | node (fields : List (String × PopVal))

end

/-- `deep === true ? '*' : deep`. -/
def popOfDeep (p : Populate) : Populate :=
  match p with
  | .all => .star
  | q => q

mutual

/-- `getPopulateFromSchema(uid, schema, strapi, depth)` with the depth
argument already clamped to a natural number (see
`getPopulateFromSchema` below for the integer-depth entry point): at
depth `0` return `'*'`; otherwise build one populate field per
component / dynamic-zone / media / relation attribute, recursing with
`depth - 1`; with no such attribute return `true`. -/
def getPopulateFromSchemaN (comps : List (String × Schema)) :
    Nat → Schema → Populate
  | 0, _ => .star
  | d + 1, schema =>
      let fields := popFields comps d schema
      if fields.isEmpty then .all else .node fields

/-- The attribute loop of `getPopulateFromSchema`. -/
def popFields (comps : List (String × Schema)) (d : Nat) :
    Schema → List (String × PopVal)
  | [] => []
  | (key, attr) :: rest =>
      let tail := popFields comps d rest
      match attr with
      | .component cuid =>
          (match jsGetSchema comps cuid with
           | some cschema =>
               (key, .pop (popOfDeep (getPopulateFromSchemaN comps d cschema)))
           | none => (key, .pop .star)) :: tail
      | .dynamiczone dzComps =>
          (if dzComps.isEmpty then (key, .pop .star)
           else (key, .on (popOn comps d dzComps))) :: tail
      | .media => (key, .flag) :: tail
      | .relation _ => (key, .flag) :: tail
      | .scalar => tail

/-- The dynamic-zone member loop of `getPopulateFromSchema`: one `on`
branch per member component that exists in the registry. -/
def popOn (comps : List (String × Schema)) (d : Nat) :
    List String → List (String × Populate)
  | [] => []
  | cu :: rest =>
      match jsGetSchema comps cu with
      | some cschema =>
          (cu, popOfDeep (getPopulateFromSchemaN comps d cschema)) ::
            popOn comps d rest
      | none => popOn comps d rest

end

/-- `getPopulateFromSchema` at an arbitrary integer depth, as in the
source (`if (depth <= 0) return '*'`, every recursive call passing
`depth - 1`): for `depth ≤ 0` the clamp `Int.toNat` puts us in the `'*'`
base case, and for positive depth one unfolding step lands at
`depth - 1`.  Totality of this definition is the termination claim. -/
def getPopulateFromSchema (comps : List (String × Schema)) (schema : Schema)
    (depth : Int) : Populate :=
  getPopulateFromSchemaN comps depth.toNat schema

/-! ### Export: draft/published merge (`runExport`, v5 branch) -/

/-- A draft row returned by
`documents(uid).findMany({ populate, status: 'draft', locale: '*' })`. -/
structure DraftRow where
  documentId : String
  locale : String
  publishedAt : Option Int
  rest : List (String × Value)

/-- A published row returned by
`documents(uid).findMany({ select: ['documentId', 'publishedAt',
'locale'], status: 'published', locale: '*' })`; a published row always
carries its publish timestamp. -/
structure PubRow where
  documentId : String
  locale : String
  publishedAt : Int

/-- The composite key used by the merge:
`` `${p.documentId}:${p.locale}` ``. -/
def mergeKey (d l : String) : String :=
  d ++ ":" ++ l

/-- `publishedMap.has(key)` for the `new Map(published.map(...))` built
by the merge (the JS `Map` constructor keeps the last entry for a
duplicated key; lookup is therefore on the reversed pair list). -/
def jsMapHas (pairs : List (String × Int)) (k : String) : Bool :=
  pairs.any (fun kv => kv.1 = k)

/-- `publishedMap.get(key)` with last-entry-wins semantics. -/
def jsMapGet (pairs : List (String × Int)) (k : String) : Option Int :=
  (pairs.reverse.find? (fun kv => kv.1 = k)).map (fun kv => kv.2)

/-- The status-merge step of `runExport` (v5 branch): every exported
entry is a draft row, annotated with the matching published timestamp
when the composite key is present in the published map and cleared to
`publishedAt: null` otherwise. -/
def mergeExportEntries (drafts : List DraftRow) (published : List PubRow) :
    List DraftRow :=
  let publishedMap :=
    published.map (fun p => (mergeKey p.documentId p.locale, p.publishedAt))
  drafts.map (fun item =>
    let k := mergeKey item.documentId item.locale
    if jsMapHas publishedMap k then
      { item with publishedAt := jsMapGet publishedMap k }
    else
      { item with publishedAt := none })

/-- The persistent artifacts `runExport` writes after its dry-run gate
(source-code copies, media primary files and renditions present in the
source uploads directory, `data.json`, the `.tar.gz` archive), in program
order.  In dry-run mode `runExport` prints its report and exits before
any of these writes. -/
def runExportWrites (dryRun : Bool) (sourceItems : List String)
    (uploads : List String) (mediaList : List MediaRef) : List String :=
  if dryRun then []
  else
    sourceItems ++
    (mediaList.foldl (fun acc f =>
      let primary := if basename f.url ∈ uploads then [basename f.url] else []
      let renditions := (f.formats.map basename).filter (fun n => n ∈ uploads)
      acc ++ primary ++ renditions) []) ++
    ["data.json", "archive.tar.gz"]

/-! ### Import orchestration (`runImport`, current v5 module)

The Documents Service is the external collaborator; its operational
semantics assumed here: `findFirst`/`update`/`publish`/`delete` address a
document by `documentId` (+ locale where given), a document's draft
variant stays addressable after publishing, `create` honours a
`documentId` supplied in its data and otherwise generates one, and every
service failure surfaces as an exception caught by the per-item `try`
blocks (modelled by the failure oracles below). -/

/-- A destination content-type model (`strapi.contentTypes[uid]`),
restricted to what the import reads: `kind === 'singleType'`,
`options?.draftAndPublish !== false`, and `attributes`. -/
structure CT where
  single : Bool
  draftAndPublish : Bool
  attributes : Schema

/-- `strapi.contentTypes[uid]`. -/
def jsGetCT (registry : List (String × CT)) (uid : String) : Option CT :=
  (registry.find? (fun kv => kv.1 = uid)).map (fun kv => kv.2)

/-- The parsed `data.json` manifest: content-type entry lists (raw JSON
objects), the deduplicated media list, view configurations and locale
codes. -/
structure Manifest where
  types : List (String × List (List (String × Value)))
  media : List MediaRef
  views : List (String × Value)
  locales : List String

/-- Per-item failure oracles for the caught exceptions of the mutating
phases (validation rejections, store errors); a `true` verdict makes the
corresponding `try` block fail after its side-effect-free prefix. -/
structure Failures where
  createEntry : String → List (String × Value) → Bool
  linkEntry : String → List (String × Value) → Bool
  singleEntry : String → List (String × Value) → Bool
  mediaCreate : Int → Bool
  entryDelete : String → String → Bool
  mediaDelete : Int → Bool
  view : String → Bool

/-- The all-successful oracle. -/
def noFailures : Failures :=
  ⟨fun _ _ => false, fun _ _ => false, fun _ _ => false,
   fun _ => false, fun _ _ => false, fun _ => false, fun _ => false⟩

/-- CLI options of the import command. -/
structure Options where
  clean : Bool
  skipSchema : Bool
  skipMedia : Bool
  dryRun : Bool

/-- Everything `runImport` consumes besides the destination store: the
input-resolution outcomes (download, extraction, manifest presence,
Strapi boot), the parsed manifest, the destination schema registry, the
extracted `uploads/` directory and exported source-code items, and the
failure oracles. -/
structure ImportEnv where
  isUrl : Bool
  downloadOk : Bool
  pathExists : Bool
  isArchive : Bool
  extractOk : Bool
  archiveHasData : Bool
  dataJsonPresent : Bool
  strapiLoads : Bool
  strapiLoadsAfterRepair : Bool
  manifest : Manifest
  registry : List (String × CT)
  comps : List (String × Schema)
  srcFiles : List String
  sourceItems : List String
  fail : Failures

/-- `documents(uid).findFirst({ filters: { documentId }, locale,
status: 'draft' })`. -/
def findDraft (s : Store) (uid d : String) (loc : Option String) :
    Option StoreEntry :=
  s.entries.find? (fun e => e.uid = uid ∧ e.documentId = d ∧ e.locale = loc)

/-- `documents(uid).findFirst({ status: 'draft' }) ||
documents(uid).findFirst({ status: 'published' })`. -/
def findFirstByUid (s : Store) (uid : String) : Option StoreEntry :=
  s.entries.find? (fun e => e.uid = uid)

/-- `documents(uid).update({ documentId, locale, data, status })`:
replace the payload of the addressed variant; `status: 'published'`
additionally makes it published. -/
def updateRows (s : Store) (uid d : String) (loc : Option String)
    (payload : Value) (toPublished : Bool) : Store :=
  { s with entries := s.entries.map (fun e =>
      if e.uid = uid ∧ e.documentId = d ∧ e.locale = loc then
        { e with payload := payload, published := e.published || toPublished }
      else e) }

/-- `documents(uid).publish({ documentId, locale })`. -/
def publishRows (s : Store) (uid d : String) (loc : Option String) : Store :=
  { s with entries := s.entries.map (fun e =>
      if e.uid = uid ∧ e.documentId = d ∧ e.locale = loc then
        { e with published := true }
      else e) }

/-- `documents(uid).delete({ documentId })`: removes the document with
all its locale variants. -/
def deleteRows (s : Store) (uid d : String) : Store :=
  { s with entries :=
      s.entries.filter (fun e => ¬(e.uid = uid ∧ e.documentId = d)) }

/-- `documents(uid).create({ data, locale, status })`: the created
document takes the `documentId` supplied in its data when present and a
store-generated one otherwise. -/
def createRow (s : Store) (uid : String) (d : Option String)
    (loc : Option String) (pub : Bool) (payload : Value) : Store :=
  let docId :=
    match d with
    | some x => x
    | none => "generated-" ++ toString s.nextRowId
  { s with
    entries := s.entries ++
      [{ rowId := s.nextRowId, uid := uid, documentId := docId,
         locale := loc, published := pub, payload := payload }],
    nextRowId := s.nextRowId + 1 }

/-- JS property assignment `obj.k = w` on the (always object-shaped)
creation payload. -/
def vSetKey (v : Value) (k : String) (w : Value) : Value :=
  match v with
  | .obj fs =>
      if fs.any (fun kv => kv.1 = k) then
        .obj (fs.map (fun kv => if kv.1 = k then (k, w) else kv))
      else .obj (fs ++ [(k, w)])
  | other => other

/-- `delete obj.k`. -/
def vDelKey (v : Value) (k : String) : Value :=
  match v with
  | .obj fs => .obj (fs.filter (fun kv => kv.1 ≠ k))
  | other => other

/-- The keys destructured away from a Phase-1 / single-type item
(`const { id, documentId, created_by, updated_by, createdBy, updatedBy,
...rawPayload } = item`). -/
def phase1Keys : List String :=
  ["id", "documentId", "created_by", "updated_by", "createdBy", "updatedBy"]

/-- `rawPayload.locale` as passed to the Documents Service. -/
def localeOf (fields : List (String × Value)) : Option String :=
  match jsGet fields "locale" with
  | some (.str s) => some s
  | _ => none

/-- The bulk media pre-pass `importMedia(strapi, mediaList,
sourceUploadsDir, options)`: the dry-run branch of each iteration only
performs the hash lookup and reports. -/
def mediaStep (opts : Options) (src : List String)
    (createFails : Int → Bool) (acc : RunSt) (f : MediaRef) : RunSt :=
  if opts.dryRun then acc else importMediaStep src createFails acc f

/-- See `mediaStep`. -/
def importMedia (opts : Options) (src : List String)
    (createFails : Int → Bool) (r : RunSt) (mediaList : List MediaRef) :
    RunSt :=
  mediaList.foldl (mediaStep opts src createFails) r

/-- The core-store key used by `importViews`. -/
def viewKeyOf (uid : String) : String :=
  "plugin_content_manager_configuration_content_types::" ++ uid

/-- One `importViews` iteration: find the existing core-store row under
the content-manager key and update it, or create it. -/
def viewStep (env : ImportEnv) (opts : Options) (acc : RunSt)
    (p : String × Value) : RunSt :=
  if opts.dryRun then acc
  else if env.fail.view p.1 then acc
  else
    let k := viewKeyOf p.1
    if acc.store.views.any (fun kv => kv.1 = k) then
      let newViews := acc.store.views.map
        (fun kv => if kv.1 = k then (k, p.2) else kv)
      { acc with
        store := { acc.store with views := newViews },
        ops := acc.ops ++ [.updateView p.1] }
    else
      { acc with
        store := { acc.store with views := acc.store.views ++ [(k, p.2)] },
        ops := acc.ops ++ [.createView p.1] }

/-- `importViews(strapi, views, options)`: upsert each view
configuration blob into the core store under its content-manager key. -/
def importViews (env : ImportEnv) (opts : Options) (r : RunSt) : RunSt :=
  env.manifest.views.foldl (viewStep env opts) r

/-- One `ensureLocaleExists` call: lookup by code, create when missing.
Note: the locale loop has no dry-run guard in the source. -/
def localeStep (acc : RunSt) (code : String) : RunSt :=
  if code = "" then acc
  else if acc.store.locales.contains code then acc
  else
    { acc with
      store := { acc.store with locales := acc.store.locales ++ [code] },
      ops := acc.ops ++ [.createLocale code] }

/-- The locale phase: `ensureLocaleExists` for every manifest locale. -/
def ensureLocales (env : ImportEnv) (r : RunSt) : RunSt :=
  env.manifest.locales.foldl localeStep r

/-- `importSourceCode(importPath, options)`: copy the exported API and
component source items into the project (dry-run: report only). -/
def sourceCopyStep (opts : Options) (acc : RunSt) (n : String) : RunSt :=
  if opts.dryRun then acc
  else { acc with ops := acc.ops ++ [.copySource n] }

/-- See `sourceCopyStep`. -/
def importSourceCode (sourceItems : List String) (opts : Options)
    (r : RunSt) : RunSt :=
  sourceItems.foldl (sourceCopyStep opts) r

/-- `cleanSourceCode(importPath, options)`: delete the project source
files matching the exported items (dry-run: report only). -/
def sourceDeleteStep (opts : Options) (acc : RunSt) (n : String) : RunSt :=
  if opts.dryRun then acc
  else { acc with ops := acc.ops ++ [.deleteSource n] }

/-- See `sourceDeleteStep`. -/
def cleanSourceCode (sourceItems : List String) (opts : Options)
    (r : RunSt) : RunSt :=
  sourceItems.foldl (sourceDeleteStep opts) r

/-- One collection-type item of the database cleanup loop of
`runImport --clean`: delete the document whose `documentId` occurs in
the manifest item (delete failures are swallowed). -/
def cleanupItemStep (env : ImportEnv) (uid : String) (a : RunSt)
    (item : List (String × Value)) : RunSt :=
  match getStrField item "documentId" with
  | some d =>
      if env.fail.entryDelete uid d then a
      else
        { a with store := deleteRows a.store uid d,
                 ops := a.ops ++ [.deleteEntry uid d] }
  | none => a

/-- One content type of the database cleanup loop. -/
def cleanupStep (env : ImportEnv) (opts : Options) (acc : RunSt)
    (p : String × List (List (String × Value))) : RunSt :=
  if p.2.isEmpty then acc
  else
    let isSingle :=
      match jsGetCT env.registry p.1 with
      | some ct => ct.single
      | none => false
    if opts.dryRun then acc
    else if isSingle then
      match findFirstByUid acc.store p.1 with
      | some l =>
          if env.fail.entryDelete p.1 l.documentId then acc
          else
            { acc with store := deleteRows acc.store p.1 l.documentId,
                       ops := acc.ops ++ [.deleteEntry p.1 l.documentId] }
      | none => acc
    else
      p.2.foldl (cleanupItemStep env p.1) acc

/-- The database cleanup loop of `runImport --clean`: per manifest
content type with a non-empty item list — single types: delete the one
local document; collection types: delete exactly the documents whose
`documentId` occurs in that type's manifest items. -/
def cleanupEntities (env : ImportEnv) (opts : Options) (r : RunSt) : RunSt :=
  env.manifest.types.foldl (cleanupStep env opts) r

/-- The media cleanup loop of `runImport --clean`: delete the
destination asset whose content hash matches a manifest media item
(lookup failures and remove failures are swallowed per item). -/
def cleanupMediaStep (env : ImportEnv) (opts : Options) (acc : RunSt)
    (f : MediaRef) : RunSt :=
  if opts.dryRun then acc
  else
    match findAssetByHash acc.store.assets f.hash with
    | some existing =>
        if env.fail.mediaDelete existing.id then acc
        else
          let newAssets :=
            acc.store.assets.filter (fun a => a.id ≠ existing.id)
          { acc with
            store := { acc.store with assets := newAssets },
            ops := acc.ops ++ [.deleteAsset existing.id] }
    | none => acc

/-- The stable identifiers listed for one content type in the manifest
(the deletion scope of `--clean` for a collection type). -/
def manifestDocIds (m : Manifest) (uid : String) : List String :=
  match m.types.find? (fun p => p.1 = uid) with
  | some p => p.2.filterMap (fun item => getStrField item "documentId")
  | none => []

/-- See `cleanupMediaStep`. -/
def cleanupMedia (env : ImportEnv) (opts : Options) (r : RunSt) : RunSt :=
  env.manifest.media.foldl (cleanupMediaStep env opts) r

/-- The normalization prefix of one Phase-1 item: strip the destructured
keys, resolve media (JIT), strip relations. -/
def phase1Prep (env : ImportEnv) (ct : CT) (r : RunSt)
    (item : List (String × Value)) : Value × RunSt :=
  let rawPayload := stripKeys item phase1Keys
  let (mediaCleaned, r1) := replaceMediaIds env.srcFiles (.obj rawPayload) r
  (simplifyPayload env.comps r1.store.entries true mediaCleaned ct.attributes,
   r1)

/-- One Phase-1 item (`runImport`, PASS 1): normalize via `phase1Prep`,
re-inject the source `documentId`, then upsert — lookup by (documentId,
locale) in draft status; update in place with status draft (published
when draft/publish is disabled), or create carrying the source
`documentId` and locale with the same status rule. -/
def phase1Item (env : ImportEnv) (uid : String) (ct : CT) (r : RunSt)
    (item : List (String × Value)) : RunSt :=
  let documentId := getStrField item "documentId"
  let rawPayload := stripKeys item phase1Keys
  let r1 := (phase1Prep env ct r item).2
  let cp0 := (phase1Prep env ct r item).1
  let creationPayload :=
    match documentId with
    | some d => vSetKey cp0 "documentId" (.str d)
    | none => cp0
  if env.fail.createEntry uid item then r1
  else
    let targetLocale := localeOf rawPayload
    let statusPub := !ct.draftAndPublish
    match documentId with
    | some d =>
        match findDraft r1.store uid d targetLocale with
        | some _ =>
            { r1 with
              store := updateRows r1.store uid d targetLocale creationPayload
                statusPub,
              ops := r1.ops ++ [.updateEntry uid d targetLocale statusPub] }
        | none =>
            { r1 with
              store := createRow r1.store uid (some d) targetLocale statusPub
                creationPayload,
              ops := r1.ops ++ [.createEntry uid (some d) targetLocale statusPub] }
    | none =>
        { r1 with
          store := createRow r1.store uid none targetLocale statusPub
            creationPayload,
          ops := r1.ops ++ [.createEntry uid none targetLocale statusPub] }

/-- PASS 1 over the manifest (dry-run: report only; unknown content
types and single types are skipped). -/
def phase1Step (env : ImportEnv) (opts : Options) (acc : RunSt)
    (p : String × List (List (String × Value))) : RunSt :=
  if opts.dryRun then acc
  else
    match jsGetCT env.registry p.1 with
    | none => acc
    | some ct =>
        if ct.single then acc
        else p.2.foldl (phase1Item env p.1 ct) acc

/-- See `phase1Step`. -/
def phase1 (env : ImportEnv) (opts : Options) (r : RunSt) : RunSt :=
  env.manifest.types.foldl (phase1Step env opts) r

/-- One Phase-2 item (`runImport`, PASS 2): items without a `documentId`
are skipped; otherwise resolve media and relations against the
now-populated destination, drop `localizations`, update the (documentId,
locale) variant, and publish it when the source row carries a publish
timestamp and the type tracks draft/publish.  An update addressed at a
missing document makes the surrounding `try` fail without effect. -/
def phase2Item (env : ImportEnv) (uid : String) (ct : CT) (r : RunSt)
    (item : List (String × Value)) : RunSt :=
  match getStrField item "documentId" with
  | none => r
  | some d =>
      let rawPayload := stripKeys item ["documentId"]
      let (mediaCleaned, r1) := replaceMediaIds env.srcFiles (.obj rawPayload) r
      let fp0 := simplifyPayload env.comps r1.store.entries false mediaCleaned
        ct.attributes
      let fullUpdatePayload := vDelKey fp0 "localizations"
      if env.fail.linkEntry uid item then r1
      else
        let targetLocale := localeOf rawPayload
        match findDraft r1.store uid d targetLocale with
        | none => r1
        | some _ =>
            let r2 :=
              { r1 with
                store := updateRows r1.store uid d targetLocale
                  fullUpdatePayload false,
                ops := r1.ops ++ [.updateEntry uid d targetLocale false] }
            if truthyOpt (jsGet rawPayload "publishedAt") ∧ ct.draftAndPublish
            then
              { r2 with
                store := publishRows r2.store uid d targetLocale,
                ops := r2.ops ++ [.publishEntry uid d targetLocale] }
            else r2

/-- PASS 2 over the manifest. -/
def phase2Step (env : ImportEnv) (opts : Options) (acc : RunSt)
    (p : String × List (List (String × Value))) : RunSt :=
  if opts.dryRun then acc
  else
    match jsGetCT env.registry p.1 with
    | none => acc
    | some ct =>
        if ct.single then acc
        else p.2.foldl (phase2Item env p.1 ct) acc

/-- See `phase2Step`. -/
def phase2 (env : ImportEnv) (opts : Options) (r : RunSt) : RunSt :=
  env.manifest.types.foldl (phase2Step env opts) r

/-- One locale iteration of the single-type pass: update the located
local document (status draft unless draft/publish is disabled) or create
it (tracking the created `documentId` for the following locales), then
publish when the source row carries a publish timestamp. -/
def singleItem (env : ImportEnv) (uid : String) (ct : CT)
    (st : RunSt × Option String) (item : List (String × Value)) :
    RunSt × Option String :=
  let r := st.1
  let targetDoc := st.2
  let rawPayload := stripKeys item phase1Keys
  let (mediaCleaned, r1) := replaceMediaIds env.srcFiles (.obj rawPayload) r
  let fp0 := simplifyPayload env.comps r1.store.entries false mediaCleaned
    ct.attributes
  let finalPayload := vDelKey (vDelKey fp0 "documentId") "localizations"
  if env.fail.singleEntry uid item then (r1, targetDoc)
  else
    let targetLocale := localeOf rawPayload
    let statusPub := !ct.draftAndPublish
    let wantPublish := ct.draftAndPublish ∧
      truthyOpt (jsGet rawPayload "publishedAt")
    match targetDoc with
    | some td =>
        let r2 :=
          match findDraft r1.store uid td targetLocale with
          | some _ =>
              { r1 with
                store := updateRows r1.store uid td targetLocale finalPayload
                  statusPub,
                ops := r1.ops ++ [.updateEntry uid td targetLocale statusPub] }
          | none => r1
        let r3 :=
          if wantPublish then
            match findDraft r2.store uid td targetLocale with
            | some _ =>
                { r2 with
                  store := publishRows r2.store uid td targetLocale,
                  ops := r2.ops ++ [.publishEntry uid td targetLocale] }
            | none => r2
          else r2
        (r3, some td)
    | none =>
        let newDoc := "generated-" ++ toString r1.store.nextRowId
        let r2 :=
          { r1 with
            store := createRow r1.store uid none targetLocale statusPub
              finalPayload,
            ops := r1.ops ++ [.createEntry uid none targetLocale statusPub] }
        let r3 :=
          if wantPublish then
            { r2 with
              store := publishRows r2.store uid newDoc targetLocale,
              ops := r2.ops ++ [.publishEntry uid newDoc targetLocale] }
          else r2
        (r3, some newDoc)

/-- The dedicated single-type pass of `runImport`: locate the one local
document, then update-or-create per exported locale with relations
resolved in a single step. -/
def singleStep (env : ImportEnv) (opts : Options) (acc : RunSt)
    (p : String × List (List (String × Value))) : RunSt :=
  match jsGetCT env.registry p.1 with
  | some ct =>
      if ct.single then
        if opts.dryRun then acc
        else if p.2.isEmpty then acc
        else
          let localEntry := findFirstByUid acc.store p.1
          (p.2.foldl (singleItem env p.1 ct)
            (acc, localEntry.map (fun e => e.documentId))).1
      else acc
  | none => acc

/-- See `singleStep`. -/
def singleTypesImport (env : ImportEnv) (opts : Options) (r : RunSt) :
    RunSt :=
  env.manifest.types.foldl (singleStep env opts) r

/-- `runImport` after a successful Strapi boot: the clean-only branch
(database cleanup, source-code cleanup, media cleanup, exit 0) or the
importing branch (media, views, locales, PASS 1, PASS 2, single types,
exit 0). -/
def runImportLoaded (env : ImportEnv) (opts : Options) (r : RunSt) :
    Nat × RunSt :=
  if opts.clean then
    let r1 :=
      if !opts.skipSchema then
        cleanSourceCode env.sourceItems opts (cleanupEntities env opts r)
      else r
    let r2 :=
      if !opts.skipMedia ∧ !env.manifest.media.isEmpty then
        cleanupMedia env opts r1
      else r1
    (0, r2)
  else
    let r1 :=
      if !env.manifest.media.isEmpty then
        importMedia opts env.srcFiles env.fail.mediaCreate r env.manifest.media
      else r
    let r2 := importViews env opts r1
    let r3 := ensureLocales env r2
    let r4 := phase1 env opts r3
    let r5 := phase2 env opts r4
    let r6 := singleTypesImport env opts r5
    (0, r6)

/-- `runImport(userInputPath, options)`: setup (download, extraction,
manifest check, pre-boot schema import, Strapi boot with the JIT repair
retry in clean mode), then `runImportLoaded`.  Returns the process exit
code and the run state. -/
def runImport (env : ImportEnv) (opts : Options) (s : Store) :
    Nat × RunSt :=
  let r0 : RunSt := ⟨s, [], []⟩
  if env.isUrl ∧ !env.downloadOk then (1, r0)
  else if !env.pathExists then (1, r0)
  else if env.isArchive ∧ !env.extractOk then (1, r0)
  else if env.isArchive ∧ !env.archiveHasData then (1, r0)
  else if !env.dataJsonPresent then (1, r0)
  else
    let r1 :=
      if !opts.clean ∧ !opts.skipSchema then
        importSourceCode env.sourceItems opts r0
      else r0
    if env.strapiLoads then runImportLoaded env opts r1
    else if opts.clean ∧ !opts.skipSchema then
      let r2 := importSourceCode env.sourceItems opts r1
      if env.strapiLoadsAfterRepair then runImportLoaded env opts r2
      else (1, r2)
    else (1, r1)

/-! ### Sample inputs used by concrete witnesses -/

/-- An empty destination store. -/
def emptyStore : Store :=
  { entries := [], assets := [], destFiles := [], views := [], locales := [],
    nextRowId := 1, nextAssetId := 1 }

/-- A destination store holding one asset of hash `abc123` and one `post`
entry (the concrete scenario of the spec). -/
def sampleStore : Store :=
  { entries := [{ rowId := 1, uid := "api::post.post", documentId := "p1",
                  locale := some "en", published := true, payload := .null }],
    assets := [{ id := 7, hash := "abc123" }],
    destFiles := ["cover.png"], views := [], locales := ["en"],
    nextRowId := 2, nextAssetId := 8 }

/-- A fresh run state over `sampleStore`. -/
def sampleRun : RunSt := ⟨sampleStore, [], []⟩

/-- A manifest media item whose hash already exists in `sampleStore`. -/
def sampleMedia : MediaRef :=
  { id := 5, hash := "abc123", url := "/uploads/cover.png", formats := [] }

/-- A manifest media item unknown to `sampleStore` with no source file. -/
def missingMedia : MediaRef :=
  { id := 9, hash := "zzz", url := "/uploads/gone.png", formats := [] }

/-- A one-entry `post` manifest item, stable id `p1`, locale `en`. -/
def sampleItem : List (String × Value) :=
  [("id", .num 3), ("documentId", .str "p1"), ("locale", .str "en"),
   ("publishedAt", .str "2024-01-01T00:00:00.000Z"), ("title", .str "hello")]

/-- A collection type with draft/publish enabled. -/
def postCT : CT :=
  { single := false, draftAndPublish := true,
    attributes := [("title", .scalar), ("cover", .media)] }

/-- A collection type with draft/publish tracking disabled. -/
def configCT : CT :=
  { single := false, draftAndPublish := false,
    attributes := [("title", .scalar)] }

/-- A registry with one collection type (draft/publish enabled) and one
draft/publish-disabled collection type. -/
def sampleRegistry : List (String × CT) :=
  [("api::post.post", postCT), ("api::config.config", configCT)]

/-- A manifest item of the draft/publish-disabled type `config`. -/
def configItem : List (String × Value) :=
  [("documentId", .str "cfg"), ("title", .str "x")]

/-- A destination store already holding the `config` document `cfg`. -/
def configStore : Store :=
  { entries := [{ rowId := 1, uid := "api::config.config",
                  documentId := "cfg", locale := none, published := true,
                  payload := .null }],
    assets := [], destFiles := [], views := [], locales := [],
    nextRowId := 2, nextAssetId := 1 }

/-- A sample import environment around `sampleRegistry` with every setup
step succeeding and no per-item failures. -/
def sampleEnv : ImportEnv :=
  { isUrl := false, downloadOk := true, pathExists := true, isArchive := true,
    extractOk := true, archiveHasData := true, dataJsonPresent := true,
    strapiLoads := true, strapiLoadsAfterRepair := true,
    manifest := { types := [("api::post.post", [sampleItem])], media := [],
                  views := [], locales := [] },
    registry := sampleRegistry, comps := [], srcFiles := [],
    sourceItems := [], fail := noFailures }

/-- A single-instance content type. -/
def aboutCT : CT :=
  { single := true, draftAndPublish := true, attributes := [] }

/-- A manifest item of the single type `about`. -/
def aboutItem : List (String × Value) :=
  [("locale", .str "en"), ("title", .str "about")]

/-- A destination store with two `post` documents (only `p1` is in the
manifest) and one `about` document. -/
def cleanupStore : Store :=
  { entries :=
      [{ rowId := 1, uid := "api::post.post", documentId := "p1",
         locale := some "en", published := true, payload := .null },
       { rowId := 2, uid := "api::post.post", documentId := "p2",
         locale := some "en", published := false, payload := .null },
       { rowId := 3, uid := "api::about.about", documentId := "ab1",
         locale := some "en", published := true, payload := .null }],
    assets := [], destFiles := [], views := [], locales := [],
    nextRowId := 4, nextAssetId := 1 }

/-- An import environment whose manifest lists the `post` item `p1` and
the single type `about`. -/
def cleanupEnv : ImportEnv :=
  { sampleEnv with
    registry := sampleRegistry ++ [("api::about.about", aboutCT)],
    manifest := { types := [("api::post.post", [sampleItem]),
                            ("api::about.about", [aboutItem])],
                  media := [], views := [], locales := [] } }

/-- A destination store table with one `cat` entry for relation
lookups. -/
def relStoreEx : List StoreEntry :=
  [{ rowId := 42, uid := "api::cat.cat", documentId := "c1",
     locale := some "en", published := true, payload := .null }]

/-- A media object (id 5, hash `h1`) that resolves nowhere: unmapped,
hash absent from the destination, and no source file. -/
def unresolvedMedia : Value :=
  .obj [("id", .num 5), ("mime", .str "image/png"),
        ("url", .str "/uploads/c.png"), ("hash", .str "h1")]

/-- The lookup key of the Documents-Service calls issued by the import
passes: the (content type, stable identifier, locale) triple that
`findFirst({ filters: { documentId }, locale })` addresses. -/
def entryKey (e : StoreEntry) : String × String × Option String :=
  (e.uid, e.documentId, e.locale)

/-- An import run whose input path does not exist and whose Phase-1
create calls are all rejected by the store. -/
def failSetupEnv : ImportEnv :=
  { isUrl := false, downloadOk := true, pathExists := false,
    isArchive := false, extractOk := true, archiveHasData := true,
    dataJsonPresent := true, strapiLoads := true,
    strapiLoadsAfterRepair := true,
    manifest := { types := [], media := [], views := [], locales := [] },
    registry := [], comps := [], srcFiles := [],
    sourceItems := ["api/post"],
    fail := { noFailures with createEntry := fun _ _ => true } }

/-! ## Theorems -/

/-- A fold whose step never changes the accumulator is the identity. -/
theorem foldl_id {α β : Type _} (l : List β) (r : α) (f : α → β → α)
    (h : ∀ a b, f a b = a) : l.foldl f r = r := by
  induction l generalizing r with
  | nil => rfl
  | cons x xs ih => rw [List.foldl_cons, h, ih]

/-- C10.  The population-plan builder terminates on every input: it is a
total function of the registry, the schema and an arbitrary integer
depth (totality is exactly what lets `getPopulateFromSchema` be accepted
as a Lean definition); it returns the wildcard `'*'` immediately whenever
`depth ≤ 0`, and for positive depth one unfolding performs the attribute
loop whose every recursive call receives `depth - 1`. -/
theorem getPopulateFromSchema_total (comps : List (String × Schema))
    (schema : Schema) (depth : Int) :
    (depth ≤ 0 → getPopulateFromSchema comps schema depth = .star) ∧
    (0 < depth →
      getPopulateFromSchema comps schema depth =
        (if (popFields comps (depth - 1).toNat schema).isEmpty then .all
         else .node (popFields comps (depth - 1).toNat schema))) := by
  constructor
  · intro h
    unfold getPopulateFromSchema
    rw [Int.toNat_of_nonpos h]
    simp [getPopulateFromSchemaN]
  · intro h
    unfold getPopulateFromSchema
    have hk : depth.toNat = (depth - 1).toNat + 1 := by omega
    rw [hk]
    simp only [getPopulateFromSchemaN]

/-- Witness for C10 at concrete inputs: depth `-3` yields the wildcard,
and depth `1` over a scalar-only schema yields `true`. -/
theorem getPopulateFromSchema_total_witness :
    getPopulateFromSchema [] [("title", .scalar)] (-3) = .star ∧
    getPopulateFromSchema [] [("title", .scalar)] 1 = .all := by
  constructor
  · exact (getPopulateFromSchema_total [] [("title", .scalar)] (-3)).1
      (by decide)
  · have h := (getPopulateFromSchema_total [] [("title", .scalar)] 1).2
      (by decide)
    simpa [popFields] using h

/-- C2.  With the dry-run option set, every listed phase — export,
media import, view-configuration import, cleanup (database, media and source
files), Phase-1 entity creation, Phase-2 relation linking, the
single-type pass, and the pre-boot source import — performs no
destination mutation at all: the run state (store, media id map and
operation trace) is returned unchanged, and the export writes no media
file, manifest or archive.  Read-only lookups inside the dry-run
branches still execute but have no effect on the state. -/
theorem dryRun_phases_no_mutation (env : ImportEnv) (opts : Options)
    (r : RunSt) (mediaList : List MediaRef) (createFails : Int → Bool)
    (src sourceItems uploads : List String)
    (hdry : opts.dryRun = true) :
    importMedia opts src createFails r mediaList = r ∧
    importViews env opts r = r ∧
    cleanupEntities env opts r = r ∧
    cleanupMedia env opts r = r ∧
    cleanSourceCode sourceItems opts r = r ∧
    importSourceCode sourceItems opts r = r ∧
    phase1 env opts r = r ∧
    phase2 env opts r = r ∧
    singleTypesImport env opts r = r ∧
    runExportWrites true sourceItems uploads mediaList = [] := by
  refine ⟨?_, ?_, ?_, ?_, ?_, ?_, ?_, ?_, ?_, rfl⟩
  · exact foldl_id _ _ _ (fun a b => by simp [mediaStep, hdry])
  · exact foldl_id _ _ _ (fun a b => by simp [viewStep, hdry])
  · refine foldl_id _ _ _ (fun a b => ?_)
    by_cases hb : b.2.isEmpty <;> simp [cleanupStep, hdry, hb]
  · exact foldl_id _ _ _ (fun a b => by simp [cleanupMediaStep, hdry])
  · exact foldl_id _ _ _ (fun a b => by simp [sourceDeleteStep, hdry])
  · exact foldl_id _ _ _ (fun a b => by simp [sourceCopyStep, hdry])
  · exact foldl_id _ _ _ (fun a b => by simp [phase1Step, hdry])
  · exact foldl_id _ _ _ (fun a b => by simp [phase2Step, hdry])
  · refine foldl_id _ _ _ (fun a b => ?_)
    cases hct : jsGetCT env.registry b.1 with
    | none => simp [singleStep, hct]
    | some ct => cases hs : ct.single <;> simp [singleStep, hct, hs, hdry]

/-- Witness for C2: a concrete dry-run invocation over `sampleEnv` and
`sampleRun` leaves every phase's state unchanged and produces no export
writes. -/
theorem dryRun_phases_no_mutation_witness :
    phase1 sampleEnv ⟨false, false, false, true⟩ sampleRun = sampleRun ∧
    cleanupEntities sampleEnv ⟨true, false, false, true⟩ sampleRun =
      sampleRun ∧
    runExportWrites true [] ["cover.png"] [sampleMedia] = [] := by
  refine ⟨?_, ?_, ?_⟩
  · exact (dryRun_phases_no_mutation sampleEnv ⟨false, false, false, true⟩
      sampleRun [] (fun _ => false) [] [] [] rfl).2.2.2.2.2.2.1
  · exact (dryRun_phases_no_mutation sampleEnv ⟨true, false, false, true⟩
      sampleRun [] (fun _ => false) [] [] [] rfl).2.2.1
  · exact (dryRun_phases_no_mutation sampleEnv ⟨false, false, false, true⟩
      sampleRun [sampleMedia] (fun _ => false) [] [] ["cover.png"]
      rfl).2.2.2.2.2.2.2.2.2

/-- Copying the primary media file touches only the uploads directory
and the trace. -/
theorem copyPrimary_store (r : RunSt) (fn : String) :
    (copyPrimary r fn).map = r.map ∧
    (copyPrimary r fn).store.assets = r.store.assets ∧
    (copyPrimary r fn).store.nextAssetId = r.store.nextAssetId ∧
    (copyPrimary r fn).store.entries = r.store.entries := by
  unfold copyPrimary
  split <;> exact ⟨rfl, rfl, rfl, rfl⟩

/-- Copying renditions touches only the uploads directory and the
trace. -/
theorem copyFormats_store (src : List String) (fs : List String) :
    ∀ r : RunSt,
      (copyFormats src r fs).map = r.map ∧
      (copyFormats src r fs).store.assets = r.store.assets ∧
      (copyFormats src r fs).store.nextAssetId = r.store.nextAssetId ∧
      (copyFormats src r fs).store.entries = r.store.entries := by
  induction fs with
  | nil => intro r; exact ⟨rfl, rfl, rfl, rfl⟩
  | cons f rest ih =>
    intro r
    simp only [copyFormats]
    split
    · obtain ⟨h1, h2, h3, h4⟩ := ih _
      exact ⟨h1, h2, h3, h4⟩
    · exact ih r

/-- Creating an asset record does not touch the entries table. -/
theorem createAssetRecord_entries (r : RunSt) (m : MediaRef) :
    ((createAssetRecord r m).2).store.entries = r.store.entries := rfl

/-- Media resolution never touches the entries table. -/
theorem resolveMedia_entries (src : List String) (r : RunSt) (m : MediaRef) :
    ((resolveMedia src r m).2).store.entries = r.store.entries := by
  unfold resolveMedia
  split
  · rfl
  · split
    · rfl
    · dsimp only
      split
      · rw [createAssetRecord_entries]
        rw [(copyFormats_store src m.formats _).2.2.2]
        exact (copyPrimary_store r _).2.2.2
      · rfl

/-- `replaceMediaIds` (and its list/field loops) never touches the
entries table: payload normalization only resolves media. -/
theorem replaceMedia_entries (src : List String) :
    (∀ (v : Value) (r : RunSt),
      ((replaceMediaIds src v r).2).store.entries = r.store.entries) ∧
    (∀ (fs : List (String × Value)) (r : RunSt),
      ((replaceMediaFields src fs r).2).store.entries = r.store.entries) ∧
    (∀ (xs : List Value) (r : RunSt),
      ((replaceMediaList src xs r).2).store.entries = r.store.entries) := by
  refine replaceMediaIds.mutual_induct src
    (fun v r => ((replaceMediaIds src v r).2).store.entries = r.store.entries)
    (fun fs r =>
      ((replaceMediaFields src fs r).2).store.entries = r.store.entries)
    (fun xs r =>
      ((replaceMediaList src xs r).2).store.entries = r.store.entries)
    ?_ ?_ ?_ ?_ ?_ ?_ ?_ ?_ ?_ ?_
  · intro xs r ys r1 hl ih
    simp only [replaceMediaIds, hl]
    rw [hl] at ih
    exact ih
  · intro fs r m hm nid r1 hres
    simp only [replaceMediaIds, hm, hres]
    have := resolveMedia_entries src r m
    rw [hres] at this
    exact this
  · intro fs r m hm r1 hres
    simp only [replaceMediaIds, hm, hres]
    have := resolveMedia_entries src r m
    rw [hres] at this
    exact this
  · intro fs r hm gs r1 hf ih
    simp only [replaceMediaIds, hm, hf]
    rw [hf] at ih
    exact ih
  · intro v r hna hno
    cases v with
    | arr xs => exact absurd rfl (hna xs)
    | obj fs => exact absurd rfl (hno fs)
    | null => rfl
    | bool b => rfl
    | num n => rfl
    | str s => rfl
  · intro r
    rfl
  · intro x xs r y r1 hx ys r2 hrest ih1 ih3
    simp only [replaceMediaList, hx, hrest]
    rw [hx] at ih1
    rw [hrest] at ih3
    exact ih3.trans ih1
  · intro r
    rfl
  · intro v rest r ih
    simp only [replaceMediaFields]
    exact ih
  · intro k v rest r hk y r1 hv gs r2 hrest ih1 ih2
    simp only [replaceMediaFields, if_neg hk, hv, hrest]
    rw [hv] at ih1
    rw [hrest] at ih2
    exact ih2.trans ih1

/-- C4.  Media-reference resolution follows exactly the order (1) the
media id map, (2) destination lookup by content hash (recording the
mapping), (3) copy of the primary file and the named renditions from the
source payload (skipping files already present at the destination, which
is what `copyPrimary`/`copyFormats` encode) followed by creation of a
destination record from the stripped portable metadata (recording and
returning the new id), (4) `null`; and the bulk pre-pass `importMedia`
applies the same procedure to each manifest item: its per-item step
equals the state effect of `resolveMedia` whenever the item's id is not
yet mapped — which is always the case in the pre-pass, since it runs
first in a fresh process with an empty `mediaIdMap` and the manifest
media list is deduplicated by id (the hypothesis `createFails m.id =
false` restricts the comparison to the non-throwing runs both loops
guard with `try`). -/
theorem resolveMedia_procedure (src : List String) (r : RunSt)
    (m : MediaRef) (createFails : Int → Bool)
    (hcf : createFails m.id = false) :
    (∀ did, mapGet r.map m.id = some did →
      resolveMedia src r m = (some did, r)) ∧
    (∀ a, mapGet r.map m.id = none →
      findAssetByHash r.store.assets m.hash = some a →
      resolveMedia src r m =
        (some a.id, { r with map := (m.id, a.id) :: r.map })) ∧
    (mapGet r.map m.id = none →
      findAssetByHash r.store.assets m.hash = none →
      basename m.url ∈ src →
      resolveMedia src r m =
        (some r.store.nextAssetId,
         (createAssetRecord
           (copyFormats src (copyPrimary r (basename m.url)) m.formats)
           m).2)) ∧
    (mapGet r.map m.id = none →
      findAssetByHash r.store.assets m.hash = none →
      basename m.url ∉ src →
      resolveMedia src r m = (none, r)) ∧
    (mapGet r.map m.id = none →
      importMediaStep src createFails r m = (resolveMedia src r m).2) := by
  refine ⟨?_, ?_, ?_, ?_, ?_⟩
  · intro did hmap
    simp only [resolveMedia, hmap]
  · intro a hmap hhash
    simp only [resolveMedia, hmap, hhash]
  · intro hmap hhash hsrc
    simp only [resolveMedia, hmap, hhash]
    rw [if_pos hsrc]
    have hnid :
        (createAssetRecord
          (copyFormats src (copyPrimary r (basename m.url)) m.formats)
          m).1 = r.store.nextAssetId := by
      show (copyFormats src (copyPrimary r (basename m.url))
        m.formats).store.nextAssetId = r.store.nextAssetId
      rw [(copyFormats_store src m.formats _).2.2.1]
      exact (copyPrimary_store r _).2.2.1
    rw [hnid]
  · intro hmap hhash hsrc
    simp only [resolveMedia, hmap, hhash]
    rw [if_neg hsrc]
  · intro hmap
    simp only [resolveMedia, importMediaStep, hmap]
    cases hhash : findAssetByHash r.store.assets m.hash with
    | some a => rfl
    | none =>
        dsimp only
        split
        · rw [hcf]
          simp
        · rfl

/-- Witness for C4 at concrete inputs: `sampleMedia`'s id is unmapped
and its hash exists in `sampleStore`, so resolution deduplicates by
content and the bulk pre-pass step agrees with it. -/
theorem resolveMedia_procedure_witness :
    resolveMedia [] sampleRun sampleMedia =
      (some 7, { sampleRun with map := (5, 7) :: sampleRun.map }) ∧
    importMediaStep [] (fun _ => false) sampleRun sampleMedia =
      (resolveMedia [] sampleRun sampleMedia).2 := by
  have h := resolveMedia_procedure [] sampleRun sampleMedia
    (fun _ => false) rfl
  exact ⟨h.2.1 ⟨7, "abc123"⟩ rfl rfl, h.2.2.2.2 rfl⟩

/-- C6 (amended).  Phase 1 per collection item with a stable identifier:
when a destination entry with the same (documentId, locale) exists it is
updated in place — with status draft when the content type tracks
draft/publish, and with status published when tracking is disabled (the
code computes `isDraftEnabled ? 'draft' : 'published'` for the update as
well, so the claim's unconditional "updated in draft state" holds only
for tracking-enabled types); when none exists a new entry is created
carrying the source's stable identifier and locale, in draft state
unless tracking is disabled, in which case directly in published
state. -/
theorem phase1Item_upsert (env : ImportEnv) (uid : String) (ct : CT)
    (r : RunSt) (item : List (String × Value)) (d : String)
    (hd : getStrField item "documentId" = some d)
    (hok : env.fail.createEntry uid item = false) :
    (∀ e, findDraft (phase1Prep env ct r item).2.store uid d
        (localeOf (stripKeys item phase1Keys)) = some e →
      phase1Item env uid ct r item =
        { (phase1Prep env ct r item).2 with
          store := updateRows (phase1Prep env ct r item).2.store uid d
            (localeOf (stripKeys item phase1Keys))
            (vSetKey (phase1Prep env ct r item).1 "documentId" (.str d))
            (!ct.draftAndPublish),
          ops := (phase1Prep env ct r item).2.ops ++
            [.updateEntry uid d (localeOf (stripKeys item phase1Keys))
              (!ct.draftAndPublish)] }) ∧
    (findDraft (phase1Prep env ct r item).2.store uid d
        (localeOf (stripKeys item phase1Keys)) = none →
      phase1Item env uid ct r item =
        { (phase1Prep env ct r item).2 with
          store := createRow (phase1Prep env ct r item).2.store uid (some d)
            (localeOf (stripKeys item phase1Keys)) (!ct.draftAndPublish)
            (vSetKey (phase1Prep env ct r item).1 "documentId" (.str d)),
          ops := (phase1Prep env ct r item).2.ops ++
            [.createEntry uid (some d) (localeOf (stripKeys item phase1Keys))
              (!ct.draftAndPublish)] }) := by
  constructor
  · intro e hf
    simp only [phase1Item, hd, hok, hf, Bool.false_eq_true, if_false]
  · intro hf
    simp only [phase1Item, hd, hok, hf, Bool.false_eq_true, if_false]

/-- Counterexample to C6 as stated: for the draft/publish-disabled type
`config`, the Phase-1 update of the existing entry `cfg` is issued with
status published, not draft. -/
theorem phase1Item_update_not_draft_cex :
    (phase1Item { sampleEnv with
        manifest := { types := [("api::config.config", [configItem])],
                      media := [], views := [], locales := [] } }
      "api::config.config" configCT ⟨configStore, [], []⟩ configItem).ops =
      [Op.updateEntry "api::config.config" "cfg" none true] ∧
    ¬ (phase1Item { sampleEnv with
        manifest := { types := [("api::config.config", [configItem])],
                      media := [], views := [], locales := [] } }
      "api::config.config" configCT ⟨configStore, [], []⟩ configItem).ops =
      [Op.updateEntry "api::config.config" "cfg" none false] := by
  constructor
  · rfl
  · decide

/-- Witness for C6 (amended) at concrete inputs: the `post` item `p1`
finds the existing `(p1, en)` entry of `sampleStore` and updates it in
draft state. -/
theorem phase1Item_upsert_witness :
    phase1Item sampleEnv "api::post.post" postCT sampleRun sampleItem =
      { (phase1Prep sampleEnv postCT sampleRun sampleItem).2 with
        store := updateRows
          (phase1Prep sampleEnv postCT sampleRun sampleItem).2.store
          "api::post.post" "p1" (some "en")
          (vSetKey (phase1Prep sampleEnv postCT sampleRun sampleItem).1
            "documentId" (.str "p1")) false,
        ops := (phase1Prep sampleEnv postCT sampleRun sampleItem).2.ops ++
          [.updateEntry "api::post.post" "p1" (some "en") false] } := by
  exact (phase1Item_upsert sampleEnv "api::post.post" postCT sampleRun
    sampleItem "p1" rfl rfl).1
    ⟨1, "api::post.post", "p1", some "en", true, .null⟩ rfl

/-! ### Cleanup scoping (C1) -/

/-- A fold whose step never adds entries yields a subset of the input
entries. -/
theorem foldl_entries_subset {β : Type _} (step : RunSt → β → RunSt)
    (h : ∀ acc b, ∀ e ∈ (step acc b).store.entries, e ∈ acc.store.entries)
    (l : List β) :
    ∀ acc e, e ∈ (l.foldl step acc).store.entries → e ∈ acc.store.entries := by
  induction l with
  | nil => intro acc e he; exact he
  | cons b rest ih =>
    intro acc e he
    rw [List.foldl_cons] at he
    exact h acc b e (ih _ e he)

/-- One collection cleanup item never adds entries. -/
theorem cleanupItemStep_subset (env : ImportEnv) (uid : String)
    (a : RunSt) (item : List (String × Value)) :
    ∀ e ∈ (cleanupItemStep env uid a item).store.entries,
      e ∈ a.store.entries := by
  intro e he
  unfold cleanupItemStep at he
  rcases hd : getStrField item "documentId" with _ | d <;>
    simp only [hd] at he
  · exact he
  · split at he
    · exact he
    · exact (List.mem_filter.1 he).1

/-- One cleanup content-type step never adds entries. -/
theorem cleanupStep_subset (env : ImportEnv) (opts : Options)
    (acc : RunSt) (p : String × List (List (String × Value))) :
    ∀ e ∈ (cleanupStep env opts acc p).store.entries,
      e ∈ acc.store.entries := by
  intro e he
  unfold cleanupStep at he
  by_cases h1 : p.2.isEmpty
  · rw [if_pos h1] at he; exact he
  · rw [if_neg h1] at he
    by_cases h2 : opts.dryRun
    · simp only [h2, if_true] at he; exact he
    · simp only [h2, Bool.false_eq_true, if_false] at he
      rcases hct : jsGetCT env.registry p.1 with _ | ct <;>
        simp only [hct] at he
      · exact foldl_entries_subset _ (cleanupItemStep_subset env p.1) p.2
          acc e he
      · by_cases h3 : ct.single
        · simp only [h3, if_true] at he
          rcases hloc : findFirstByUid acc.store p.1 with _ | l <;>
            simp only [hloc] at he
          · exact he
          · split at he
            · exact he
            · exact (List.mem_filter.1 he).1
        · simp only [h3, Bool.false_eq_true, if_false] at he
          exact foldl_entries_subset _ (cleanupItemStep_subset env p.1) p.2
            acc e he

/-- A collection-type entry whose `documentId` is not listed in the
items survives the item loop unchanged. -/
theorem cleanupItems_mem (env : ImportEnv) (uid : String)
    (items : List (List (String × Value))) :
    ∀ (a : RunSt) (e : StoreEntry), e ∈ a.store.entries →
      (∀ item ∈ items, ∀ d, getStrField item "documentId" = some d →
        ¬(e.uid = uid ∧ e.documentId = d)) →
      e ∈ (items.foldl (cleanupItemStep env uid) a).store.entries := by
  induction items with
  | nil => intro a e he _; exact he
  | cons it rest ih =>
    intro a e he hno
    rw [List.foldl_cons]
    refine ih _ e ?_ (fun item hm d hd => hno item (List.mem_cons_of_mem _ hm)
      d hd)
    unfold cleanupItemStep
    rcases hd : getStrField it "documentId" with _ | d <;> simp only [hd]
    · exact he
    · split
      · exact he
      · refine List.mem_filter.2 ⟨he, ?_⟩
        simp only [decide_eq_true_eq]
        exact hno it (List.mem_cons_self it rest) d hd

/-- An entry of a different content type survives a cleanup step
unchanged. -/
theorem cleanupStep_mem_other (env : ImportEnv) (opts : Options)
    (acc : RunSt) (p : String × List (List (String × Value)))
    (e : StoreEntry) (he : e ∈ acc.store.entries) (hne : e.uid ≠ p.1) :
    e ∈ (cleanupStep env opts acc p).store.entries := by
  unfold cleanupStep
  by_cases h1 : p.2.isEmpty
  · rw [if_pos h1]; exact he
  · rw [if_neg h1]
    dsimp only
    by_cases h2 : opts.dryRun
    · simp only [h2, if_true]; exact he
    · simp only [h2, Bool.false_eq_true, if_false]
      rcases hct : jsGetCT env.registry p.1 with _ | ct <;>
        simp only [hct, Bool.false_eq_true, if_false]
      · exact cleanupItems_mem env p.1 p.2 acc e he
          (fun item _ d _ => fun hc => hne hc.1)
      · by_cases h3 : ct.single
        · simp only [h3, if_true]
          rcases hloc : findFirstByUid acc.store p.1 with _ | l <;>
            simp only [hloc]
          · exact he
          · split
            · exact he
            · refine List.mem_filter.2 ⟨he, ?_⟩
              simp only [decide_eq_true_eq]
              exact fun hc => hne hc.1
        · simp only [h3, Bool.false_eq_true, if_false]
          exact cleanupItems_mem env p.1 p.2 acc e he
            (fun item _ d _ => fun hc => hne hc.1)

/-- With unique keys, `find?` by a member's key returns that member. -/
theorem find_eq_of_nodup_keys {α : Type _} (l : List (String × α))
    (p : String × α) (hnd : (l.map Prod.fst).Nodup) (hp : p ∈ l) :
    l.find? (fun kv => kv.1 = p.1) = some p := by
  induction l with
  | nil => cases hp
  | cons q rest ih =>
    rcases List.mem_cons.1 hp with rfl | hp'
    · exact List.find?_cons_of_pos _ (by simp)
    · have hq : ¬(q.1 = p.1) := by
        intro hqe
        have hmem : p.1 ∈ rest.map Prod.fst := List.mem_map_of_mem Prod.fst hp'
        rw [← hqe] at hmem
        exact (List.nodup_cons.1 hnd).1 hmem
      rw [List.find?_cons_of_neg _ (by simpa using hq)]
      exact ih (List.nodup_cons.1 hnd).2 hp'

/-- Survival through the whole cleanup fold, given per-pair safety. -/
theorem cleanupFold_mem (env : ImportEnv) (opts : Options)
    (l : List (String × List (List (String × Value)))) :
    ∀ (acc : RunSt) (e : StoreEntry), e ∈ acc.store.entries →
      (∀ p ∈ l, p.1 = e.uid →
        ((match jsGetCT env.registry e.uid with
          | some ct => ct.single
          | none => false) = false) ∧
        (∀ item ∈ p.2, ∀ d, getStrField item "documentId" = some d →
          e.documentId ≠ d)) →
      e ∈ (l.foldl (cleanupStep env opts) acc).store.entries := by
  induction l with
  | nil => intro acc e he _; exact he
  | cons p rest ih =>
    intro acc e he hsafe
    rw [List.foldl_cons]
    refine ih _ e ?_ (fun q hq hqe => hsafe q (List.mem_cons_of_mem _ hq) hqe)
    by_cases hpe : p.1 = e.uid
    · obtain ⟨hcoll, hids⟩ := hsafe p (List.mem_cons_self p rest) hpe
      have hcoll' : (match jsGetCT env.registry p.1 with
          | some ct => ct.single
          | none => false) = false := by
        rw [hpe]; exact hcoll
      unfold cleanupStep
      by_cases h1 : p.2.isEmpty
      · rw [if_pos h1]; exact he
      · rw [if_neg h1]
        dsimp only
        by_cases h2 : opts.dryRun
        · simp only [h2, if_true]; exact he
        · simp only [h2, Bool.false_eq_true, if_false]
          rw [hcoll']
          simp only [Bool.false_eq_true, if_false]
          exact cleanupItems_mem env p.1 p.2 acc e he
            (fun item hm d hd => fun hc =>
              hids item hm d hd hc.2)
    · exact cleanupStep_mem_other env opts acc p e he
        (fun hc => hpe hc.symm)

/-- C1.  Cleanup (`--clean`) is strictly scoped to manifest membership:
for every collection content type, every destination entry whose
`documentId` does not appear among that type's manifest items is left
unchanged by the database cleanup phase (in particular entries of
content types absent from the manifest are untouched); for a
single-instance type with exported items, the one local entry (all
entries carry its `documentId`) is deleted outright.  The manifest's
type map has unique keys, being parsed from a JSON object. -/
theorem cleanupEntities_scoped (env : ImportEnv) (opts : Options)
    (r : RunSt)
    (hnd : (env.manifest.types.map Prod.fst).Nodup) :
    (∀ e ∈ r.store.entries,
      ((match jsGetCT env.registry e.uid with
        | some ct => ct.single
        | none => false) = false) →
      e.documentId ∉ manifestDocIds env.manifest e.uid →
      e ∈ (cleanupEntities env opts r).store.entries) ∧
    (∀ uid items ct, (uid, items) ∈ env.manifest.types → items ≠ [] →
      jsGetCT env.registry uid = some ct → ct.single = true →
      opts.dryRun = false →
      (∀ d, env.fail.entryDelete uid d = false) →
      (∀ e1 ∈ r.store.entries, ∀ e2 ∈ r.store.entries,
        e1.uid = uid → e2.uid = uid → e1.documentId = e2.documentId) →
      ∀ e ∈ (cleanupEntities env opts r).store.entries, e.uid ≠ uid) := by
  constructor
  · intro e he hcoll hnotin
    unfold cleanupEntities
    refine cleanupFold_mem env opts env.manifest.types r e he ?_
    intro p hp hpe
    refine ⟨hcoll, ?_⟩
    intro item hm d hd heq
    have hfind := find_eq_of_nodup_keys env.manifest.types p hnd hp
    rw [hpe] at hfind
    apply hnotin
    unfold manifestDocIds
    rw [hfind]
    exact heq ▸ List.mem_filterMap.2 ⟨item, hm, hd⟩
  · intro uid items ct hmem hne hct hsingle hdry hfail hshare e he
    obtain ⟨l1, l2, hsplit⟩ := List.append_of_mem hmem
    unfold cleanupEntities at he
    rw [hsplit, List.foldl_append, List.foldl_cons] at he
    set acc1 := l1.foldl (cleanupStep env opts) r with hacc1
    have hsub1 : ∀ x ∈ acc1.store.entries, x ∈ r.store.entries :=
      fun x hx => foldl_entries_subset _ (cleanupStep_subset env opts) l1 r
        x hx
    have hstep : cleanupStep env opts acc1 (uid, items) =
        (match findFirstByUid acc1.store uid with
         | some l =>
             if env.fail.entryDelete uid l.documentId then acc1
             else
               { acc1 with store := deleteRows acc1.store uid l.documentId,
                           ops := acc1.ops ++ [.deleteEntry uid l.documentId] }
         | none => acc1) := by
      unfold cleanupStep
      have hemp : ((uid, items).2.isEmpty) = false := by
        cases items with
        | nil => exact absurd rfl hne
        | cons a as => rfl
      simp [hemp, hct, hsingle, hdry]
    have hA : ∀ x ∈ (cleanupStep env opts acc1 (uid, items)).store.entries,
        x.uid ≠ uid := by
      intro x hx
      rw [hstep] at hx
      cases hloc : findFirstByUid acc1.store uid with
      | none =>
          rw [hloc] at hx
          have hnone := List.find?_eq_none.1 hloc x hx
          simpa using hnone
      | some l =>
          rw [hloc] at hx
          simp only [hfail l.documentId, Bool.false_eq_true, if_false,
            deleteRows] at hx
          intro hxu
          have hxmem := (List.mem_filter.1 hx).1
          have hpred := (List.mem_filter.1 hx).2
          have hlmem : l ∈ acc1.store.entries := List.mem_of_find?_eq_some hloc
          have hlu : l.uid = uid := by
            have := List.find?_some hloc
            simpa using this
          have hdoc : x.documentId = l.documentId :=
            hshare x (hsub1 x hxmem) l (hsub1 l hlmem) hxu hlu
          simp [hxu, hdoc] at hpred
    have hmem2 := foldl_entries_subset _ (cleanupStep_subset env opts) l2 _ e he
    exact hA e hmem2

/-- Witness for C1 at concrete inputs: under `--clean` over
`cleanupStore`, the `post` document `p2` (absent from the manifest)
survives the database cleanup, while the single type `about` loses its
one local entry. -/
theorem cleanupEntities_scoped_witness :
    ({ rowId := 2, uid := "api::post.post", documentId := "p2",
       locale := some "en", published := false,
       payload := Value.null } : StoreEntry) ∈
      (cleanupEntities cleanupEnv ⟨true, false, false, false⟩
        ⟨cleanupStore, [], []⟩).store.entries ∧
    (∀ e ∈ (cleanupEntities cleanupEnv ⟨true, false, false, false⟩
        ⟨cleanupStore, [], []⟩).store.entries,
      e.uid ≠ "api::about.about") := by
  have h := cleanupEntities_scoped cleanupEnv ⟨true, false, false, false⟩
    ⟨cleanupStore, [], []⟩ (by decide)
  constructor
  · exact h.1 _ (List.mem_cons_of_mem _ (List.mem_cons_self _ _))
      rfl (by decide)
  · refine h.2 "api::about.about" [aboutItem] aboutCT
      (List.mem_cons_of_mem _ (List.mem_cons_self _ _))
      (List.cons_ne_nil _ _) rfl rfl rfl (fun d => rfl) ?_
    intro e1 h1 e2 h2 hu1 hu2
    have h1' : e1 ∈ cleanupStore.entries := h1
    have h2' : e2 ∈ cleanupStore.entries := h2
    simp only [cleanupStore, List.mem_cons, List.not_mem_nil,
      or_false] at h1' h2'
    rcases h1' with rfl | rfl | rfl <;> rcases h2' with rfl | rfl | rfl <;>
      first
        | rfl
        | exact absurd hu1 (by decide)
        | exact absurd hu2 (by decide)

/-! ### Export merge (C5) -/

/-- `publishedMap.has` finds exactly the listed keys. -/
theorem jsMapHas_iff (pairs : List (String × Int)) (k : String) :
    jsMapHas pairs k = true ↔ ∃ v, (k, v) ∈ pairs := by
  unfold jsMapHas
  rw [List.any_eq_true]
  constructor
  · rintro ⟨⟨k', v⟩, hm, hk⟩
    simp only [decide_eq_true_eq] at hk
    subst hk
    exact ⟨v, hm⟩
  · rintro ⟨v, hm⟩
    exact ⟨(k, v), hm, by simp⟩

/-- With unique keys, a key determines its value. -/
theorem dup_key_eq (pairs : List (String × Int))
    (hnd : (pairs.map Prod.fst).Nodup) (k : String) (v w : Int)
    (h1 : (k, v) ∈ pairs) (h2 : (k, w) ∈ pairs) : v = w := by
  induction pairs with
  | nil => cases h1
  | cons q rest ih =>
    have hq := List.nodup_cons.1 hnd
    rcases List.mem_cons.1 h1 with h1e | h1'
    · rcases List.mem_cons.1 h2 with h2e | h2'
      · have hq2 : (k, v) = (k, w) := h1e.trans h2e.symm
        injection hq2
      · exfalso
        apply hq.1
        have : (k, w).1 ∈ rest.map Prod.fst :=
          List.mem_map_of_mem Prod.fst h2'
        rw [← h1e]
        exact this
    · rcases List.mem_cons.1 h2 with h2e | h2'
      · exfalso
        apply hq.1
        have : (k, v).1 ∈ rest.map Prod.fst :=
          List.mem_map_of_mem Prod.fst h1'
        rw [← h2e]
        exact this
      · exact ih hq.2 h1' h2'

/-- With unique keys, `publishedMap.get` returns the listed value. -/
theorem jsMapGet_eq (pairs : List (String × Int))
    (hnd : (pairs.map Prod.fst).Nodup) (k : String) (v : Int)
    (hm : (k, v) ∈ pairs) : jsMapGet pairs k = some v := by
  unfold jsMapGet
  have hrev : (k, v) ∈ pairs.reverse := List.mem_reverse.2 hm
  rcases hfound : pairs.reverse.find? (fun kv => kv.1 = k) with _ | kv
  · exfalso
    have := List.find?_eq_none.1 hfound (k, v) hrev
    simp at this
  · have hkv1 : kv.1 = k := by simpa using List.find?_some hfound
    have hkvm : kv ∈ pairs :=
      List.mem_reverse.1 (List.mem_of_find?_eq_some hfound)
    have hkv : (k, kv.2) ∈ pairs := by
      cases kv with
      | mk a b =>
        simp only at hkv1
        subst hkv1
        exact hkvm
    have hv2 : kv.2 = v := dup_key_eq pairs hnd k kv.2 v hkv hm
    rw [hfound]
    simp [hv2]

/-- C5.  The v5 export merge: every exported entry is the draft-state
row (stable identifier, locale and remaining fields untouched), and its
publish timestamp is the published counterpart's timestamp if and only
if a published row exists for exactly the same (documentId, locale)
pair, `null` otherwise.  The two hypotheses express that the composite
`` `${documentId}:${locale}` `` keys are collision-free and that the
store returns at most one published row per (documentId, locale) —
both guaranteed by the store, whose generated documentIds and IETF
locale codes never contain `:` and whose published rows are unique per
variant. -/
theorem mergeExportEntries_spec (drafts : List DraftRow)
    (published : List PubRow)
    (hinj : ∀ p ∈ published, ∀ q ∈ drafts,
      mergeKey p.documentId p.locale = mergeKey q.documentId q.locale →
      p.documentId = q.documentId ∧ p.locale = q.locale)
    (hnd : (published.map
      (fun p => mergeKey p.documentId p.locale)).Nodup) :
    (mergeExportEntries drafts published).length = drafts.length ∧
    (∀ (i : Nat) (d : DraftRow), drafts[i]? = some d →
      ∃ m, (mergeExportEntries drafts published)[i]? = some m ∧
        m.documentId = d.documentId ∧ m.locale = d.locale ∧
        m.rest = d.rest ∧
        (∀ t : Int, m.publishedAt = some t ↔
          ∃ p ∈ published, p.documentId = d.documentId ∧
            p.locale = d.locale ∧ p.publishedAt = t) ∧
        (m.publishedAt = none ↔
          ¬ ∃ p ∈ published, p.documentId = d.documentId ∧
            p.locale = d.locale)) := by
  constructor
  · unfold mergeExportEntries
    exact List.length_map _ _
  · intro i d hi
    have hdm : d ∈ drafts := List.getElem?_mem hi
    unfold mergeExportEntries
    rw [List.getElem?_map, hi, Option.map_some']
    dsimp only
    set pmap := published.map
      (fun p => (mergeKey p.documentId p.locale, p.publishedAt)) with hpmap
    set k := mergeKey d.documentId d.locale with hk
    have hndp : (pmap.map Prod.fst).Nodup := by
      rw [hpmap, List.map_map]
      exact hnd
    have hmemiff : ∀ t : Int, (k, t) ∈ pmap ↔
        ∃ p ∈ published, p.documentId = d.documentId ∧
          p.locale = d.locale ∧ p.publishedAt = t := by
      intro t
      constructor
      · intro hm
        rw [hpmap] at hm
        obtain ⟨p, hp, hpe⟩ := List.mem_map.1 hm
        have hkey : mergeKey p.documentId p.locale = k :=
          congrArg Prod.fst hpe
        have ht : p.publishedAt = t := congrArg Prod.snd hpe
        obtain ⟨hdoc, hloc⟩ := hinj p hp d hdm hkey
        exact ⟨p, hp, hdoc, hloc, ht⟩
      · rintro ⟨p, hp, hdoc, hloc, ht⟩
        rw [hpmap]
        refine List.mem_map.2 ⟨p, hp, ?_⟩
        rw [hk, hdoc, hloc, ht]
    by_cases hhas : jsMapHas pmap k = true
    · obtain ⟨v, hv⟩ := (jsMapHas_iff pmap k).1 hhas
      have hget : jsMapGet pmap k = some v := jsMapGet_eq pmap hndp k v hv
      refine ⟨{ d with publishedAt := jsMapGet pmap k },
        by rw [hhas]; rfl, rfl, rfl, rfl, ?_, ?_⟩
      · intro t
        simp only [hget]
        constructor
        · intro hsome
          have hvt : v = t := by simpa using hsome
          exact (hmemiff t).1 (hvt ▸ hv)
        · intro hex
          have hmt := (hmemiff t).2 hex
          have hvt : t = v := dup_key_eq pmap hndp k t v hmt hv
          simp [hvt]
      · simp only [hget]
        constructor
        · intro hcontr
          exact absurd hcontr (by simp)
        · intro hnex
          exfalso
          obtain ⟨p, hp, hdoc, hloc, _⟩ := (hmemiff v).1 hv
          exact hnex ⟨p, hp, hdoc, hloc⟩
    · have hfalse : jsMapHas pmap k = false := by
        simpa using hhas
      refine ⟨{ d with publishedAt := none }, by rw [hfalse]; rfl, rfl, rfl,
        rfl, ?_, ?_⟩
      · intro t
        constructor
        · intro hcontr
          exact absurd hcontr (by simp)
        · intro hex
          exfalso
          have hmt := (hmemiff t).2 hex
          have : jsMapHas pmap k = true := (jsMapHas_iff pmap k).2 ⟨t, hmt⟩
          rw [hfalse] at this
          cases this
      · constructor
        · intro _
          rintro ⟨p, hp, hdoc, hloc⟩
          have hmt : (k, p.publishedAt) ∈ pmap := by
            rw [hpmap]
            refine List.mem_map.2 ⟨p, hp, ?_⟩
            rw [hk, hdoc, hloc]
          have : jsMapHas pmap k = true :=
            (jsMapHas_iff pmap k).2 ⟨p.publishedAt, hmt⟩
          rw [hfalse] at this
          cases this
        · intro _
          rfl

/-- Witness for C5 at concrete inputs: among two draft rows, only the
one with a published counterpart for its exact (documentId, locale) pair
receives the published timestamp. -/
theorem mergeExportEntries_spec_witness :
    ∃ m, (mergeExportEntries
        [⟨"p1", "en", some 99, []⟩, ⟨"p2", "en", some 50, []⟩]
        [⟨"p1", "en", 123⟩])[0]? = some m ∧ m.publishedAt = some 123 := by
  have h := mergeExportEntries_spec
    [⟨"p1", "en", some 99, []⟩, ⟨"p2", "en", some 50, []⟩]
    [⟨"p1", "en", 123⟩] (by decide) (by decide)
  obtain ⟨m, hm, _, _, _, hiff, _⟩ := h.2 0 ⟨"p1", "en", some 99, []⟩ rfl
  exact ⟨m, hm, (hiff 123).2 ⟨⟨"p1", "en", 123⟩,
    List.mem_cons_self _ _, rfl, rfl, rfl⟩⟩

/-! ### Payload normalizer key loop (C7, C8) -/

/-- One step of the `simplifyFields` loop emits according to
`simplifyField?`. -/
theorem simplifyFields_cons (comps : List (String × Schema))
    (entries : List StoreEntry) (strip : Bool) (attrs : Schema)
    (key : String) (value : Value) (rest : List (String × Value)) :
    simplifyFields comps entries strip ((key, value) :: rest) attrs =
      (match simplifyField? comps entries strip attrs key value with
       | some w => (key, w) :: simplifyFields comps entries strip rest attrs
       | none => simplifyFields comps entries strip rest attrs) := by
  simp only [simplifyFields]

/-- A key absent from an object is absent from its lookup. -/
theorem jsGet_eq_none (fs : List (String × Value)) (key : String)
    (h : key ∉ fs.map Prod.fst) : jsGet fs key = none := by
  unfold jsGet
  have hfind : fs.find? (fun kv => kv.1 = key) = none :=
    List.find?_eq_none.2 (fun kv hkv => by
      simp only [decide_eq_true_eq]
      intro hk
      exact h (hk ▸ List.mem_map_of_mem Prod.fst hkv))
  rw [hfind]
  rfl

/-- The normalized object's lookup at any key is the input lookup pushed
through the per-key emission rule (keys being unique, as in any JSON
object). -/
theorem simplifyFields_jsGet (comps : List (String × Schema))
    (entries : List StoreEntry) (strip : Bool) (attrs : Schema) :
    ∀ fs : List (String × Value), (fs.map Prod.fst).Nodup → ∀ key,
      jsGet (simplifyFields comps entries strip fs attrs) key =
        (jsGet fs key).bind (simplifyField? comps entries strip attrs key) := by
  intro fs
  induction fs with
  | nil => intro _ key; simp [simplifyFields, jsGet]
  | cons kv rest ih =>
    intro hnd key
    obtain ⟨key', value'⟩ := kv
    have hnd' := List.nodup_cons.1 hnd
    rw [simplifyFields_cons]
    by_cases hk : key' = key
    · subst hk
      have hin : jsGet ((key', value') :: rest) key' = some value' := by
        simp [jsGet, List.find?]
      rw [hin]
      have hrest : jsGet rest key' = none := jsGet_eq_none rest key' hnd'.1
      rcases hf : simplifyField? comps entries strip attrs key' value' with
        _ | w
      · rw [ih hnd'.2 key', hrest]
        simp [hf]
      · simp [jsGet, List.find?, hf]
    · have hin : jsGet ((key', value') :: rest) key = jsGet rest key := by
        simp [jsGet, List.find?, hk]
      rw [hin]
      rcases hf : simplifyField? comps entries strip attrs key' value' with
        _ | w
      · exact ih hnd'.2 key
      · have : jsGet ((key', w) ::
            simplifyFields comps entries strip rest attrs) key =
            jsGet (simplifyFields comps entries strip rest attrs) key := by
          simp [jsGet, List.find?, hk]
        rw [this]
        exact ih hnd'.2 key

/-- C7.  Relation attributes under normalization: in relations-stripped
mode the attribute is omitted entirely; in relations-resolved mode a
many-valued relation is replaced by the list of resolved destination row
ids with every unresolved reference removed, a single-valued relation by
its resolved row id or omitted when resolution fails, and each
reference's resolution looks the stable identifier (`documentId`) up in
the destination table of the relation's target and yields that row's
local id — all yielding a total function, so no reference failure can
fail normalization of the entry. -/
theorem simplifyPayload_relation_spec (comps : List (String × Schema))
    (entries : List StoreEntry) (attrs : Schema)
    (fs : List (String × Value)) (key : String) (target : Option String)
    (hnd : (fs.map Prod.fst).Nodup)
    (hattr : lookupAttr attrs key = some (.relation target)) :
    (vGet (simplifyPayload comps entries true (.obj fs) attrs) key = none) ∧
    (∀ vs, jsGet fs key = some (.arr vs) →
      vGet (simplifyPayload comps entries false (.obj fs) attrs) key =
        some (.arr (resolveRelArray entries target vs))) ∧
    (∀ ofs, jsGet fs key = some (.obj ofs) →
      vGet (simplifyPayload comps entries false (.obj fs) attrs) key =
        (match lookupId entries target (.obj ofs) with
         | some rid => if rid ≠ 0 then some (.num rid) else none
         | none => none)) ∧
    (∀ ofs s tgt, target = some tgt → tgt ≠ "" → s ≠ "" →
      jsGet ofs "documentId" = some (.str s) →
      lookupId entries target (.obj ofs) =
        (entries.find? (fun e => e.uid = tgt ∧ e.documentId = s)).map
          (fun e => e.rowId)) := by
  have hout : ∀ strip,
      vGet (simplifyPayload comps entries strip (.obj fs) attrs) key =
        (jsGet fs key).bind
          (simplifyField? comps entries strip attrs key) := by
    intro strip
    have : simplifyPayload comps entries strip (.obj fs) attrs =
        .obj (simplifyFields comps entries strip fs attrs) := by
      simp [simplifyPayload]
    rw [this]
    exact simplifyFields_jsGet comps entries strip attrs fs hnd key
  refine ⟨?_, ?_, ?_, ?_⟩
  · rw [hout true]
    rcases hv : jsGet fs key with _ | v
    · rfl
    · show simplifyField? comps entries true attrs key v = none
      cases v <;> simp [simplifyField?, hattr]
  · intro vs hv
    rw [hout false, hv]
    show simplifyField? comps entries false attrs key (.arr vs) = _
    rw [simplifyField?, hattr]
    rfl
  · intro ofs hv
    rw [hout false, hv]
    show simplifyField? comps entries false attrs key (.obj ofs) = _
    rw [simplifyField?, hattr]
    rfl
  · intro ofs s tgt htgt hne hse hdoc
    subst htgt
    simp [lookupId, vGet, hdoc, truthy, hse, hne]

/-- Witness for C7 at concrete inputs: of two referenced `cat` entries
only `c1` exists at the destination; the resolved payload carries
`[42]`, and the stripped payload omits the attribute. -/
theorem simplifyPayload_relation_spec_witness :
    vGet (simplifyPayload [] relStoreEx false
        (.obj [("cats", .arr [.obj [("documentId", .str "c1")],
                              .obj [("documentId", .str "missing")]])])
        [("cats", .relation (some "api::cat.cat"))]) "cats" =
      some (.arr [.num 42]) ∧
    vGet (simplifyPayload [] relStoreEx true
        (.obj [("cats", .arr [.obj [("documentId", .str "c1")],
                              .obj [("documentId", .str "missing")]])])
        [("cats", .relation (some "api::cat.cat"))]) "cats" = none := by
  have h := simplifyPayload_relation_spec [] relStoreEx
    [("cats", .relation (some "api::cat.cat"))]
    [("cats", .arr [.obj [("documentId", .str "c1")],
                    .obj [("documentId", .str "missing")]])]
    "cats" (some "api::cat.cat") (by decide) rfl
  exact ⟨(h.2.1 _ rfl).trans (by rfl), h.1⟩

/-- A singleton object whose sole value is itself an object is not a
media reference (`url` is not a string). -/
theorem mediaRefOf_single_obj (key : String) (gfs : List (String × Value)) :
    mediaRefOf [(key, Value.obj gfs)] = none := by
  unfold mediaRefOf
  by_cases hk : key = "url"
  · subst hk
    have h : jsGet [("url", Value.obj gfs)] "url" = some (Value.obj gfs) := by
      simp [jsGet, List.find?]
    rw [h]
  · have h : jsGet [(key, Value.obj gfs)] "url" = none := by
      simp [jsGet, List.find?, hk]
    rw [h]

/-- A singleton object whose sole value is an array is not a media
reference. -/
theorem mediaRefOf_single_arr (key : String) (xs : List Value) :
    mediaRefOf [(key, Value.arr xs)] = none := by
  unfold mediaRefOf
  by_cases hk : key = "url"
  · subst hk
    have h : jsGet [("url", Value.arr xs)] "url" = some (Value.arr xs) := by
      simp [jsGet, List.find?]
    rw [h]
  · have h : jsGet [(key, Value.arr xs)] "url" = none := by
      simp [jsGet, List.find?, hk]
    rw [h]

/-- A media object with no id mapping, no content-hash match at the
destination and no file in the source uploads resolves to nothing and
leaves the run state untouched. -/
theorem resolveMedia_unresolved (src : List String) (r : RunSt)
    (m : MediaRef)
    (hmap : mapGet r.map m.id = none)
    (hhash : findAssetByHash r.store.assets m.hash = none)
    (hfile : basename m.url ∉ src) :
    resolveMedia src r m = (none, r) := by
  simp only [resolveMedia, hmap, hhash]
  rw [if_neg hfile]

/-- An unresolvable media reference is replaced by `null` in place — both
as a single field value and as an array element — and the media branch of
`simplifyPayload` copies that `null` verbatim into the normalized
payload. -/
theorem unresolved_media_null_aux (comps : List (String × Schema))
    (entries : List StoreEntry) (strip : Bool) (r : RunSt)
    (src : List String) (key : String) (mfs : List (String × Value))
    (m : MediaRef) (attrs : Schema)
    (hkey : key ≠ "id")
    (hm : mediaRefOf mfs = some m)
    (hmap : mapGet r.map m.id = none)
    (hhash : findAssetByHash r.store.assets m.hash = none)
    (hfile : basename m.url ∉ src)
    (hattr : lookupAttr attrs key = some .media) :
    vGet (simplifyPayload comps entries strip
      (replaceMediaIds src (.obj [(key, .obj mfs)]) r).1 attrs) key =
      some .null ∧
    vGet (simplifyPayload comps entries strip
      (replaceMediaIds src (.obj [(key, .arr [.obj mfs])]) r).1 attrs) key =
      some (.arr [.null]) := by
  have hres : resolveMedia src r m = (none, r) :=
    resolveMedia_unresolved src r m hmap hhash hfile
  constructor
  · have hrep : replaceMediaIds src (.obj [(key, .obj mfs)]) r =
        (.obj [(key, .null)], r) := by
      simp only [replaceMediaIds, replaceMediaFields, mediaRefOf_single_obj,
        if_neg hkey, hm, hres]
    rw [hrep]
    have hobj : simplifyPayload comps entries strip
        (.obj [(key, .null)]) attrs =
        .obj (simplifyFields comps entries strip [(key, .null)] attrs) := by
      simp [simplifyPayload]
    rw [hobj]
    rw [show (vGet (.obj (simplifyFields comps entries strip
      [(key, .null)] attrs)) key) = jsGet (simplifyFields comps entries
      strip [(key, .null)] attrs) key from rfl]
    rw [simplifyFields_jsGet comps entries strip attrs [(key, .null)]
      (by simp) key]
    have h1 : jsGet [(key, .null)] key = some .null := by
      simp [jsGet, List.find?]
    rw [h1]
    show simplifyField? comps entries strip attrs key .null = some .null
    simp [simplifyField?, hattr]
  · have hrep : replaceMediaIds src (.obj [(key, .arr [.obj mfs])]) r =
        (.obj [(key, .arr [.null])], r) := by
      simp only [replaceMediaIds, replaceMediaFields, replaceMediaList,
        mediaRefOf_single_arr, if_neg hkey, hm, hres]
    rw [hrep]
    have hobj : simplifyPayload comps entries strip
        (.obj [(key, .arr [.null])]) attrs =
        .obj (simplifyFields comps entries strip
          [(key, .arr [.null])] attrs) := by
      simp [simplifyPayload]
    rw [hobj]
    rw [show (vGet (.obj (simplifyFields comps entries strip
      [(key, .arr [.null])] attrs)) key) = jsGet (simplifyFields comps
      entries strip [(key, .arr [.null])] attrs) key from rfl]
    rw [simplifyFields_jsGet comps entries strip attrs
      [(key, .arr [.null])] (by simp) key]
    have h1 : jsGet [(key, .arr [.null])] key = some (.arr [.null]) := by
      simp [jsGet, List.find?]
    rw [h1]
    show simplifyField? comps entries strip attrs key (.arr [.null]) =
      some (.arr [.null])
    simp [simplifyField?, hattr]

/-- Counterexample to C8 as stated: normalizing a payload whose single
`cover` media reference is unresolvable (empty map, no hash match in the
empty destination, no source file) yields a payload in which the
`cover` field is still present with value `null` — it is not omitted. -/
theorem unresolved_media_not_omitted_cex :
    vGet (simplifyPayload [] [] false
      (replaceMediaIds [] (.obj [("cover", unresolvedMedia)])
        ⟨emptyStore, [], []⟩).1 [("cover", Attr.media)]) "cover" =
      some Value.null ∧
    ¬ vGet (simplifyPayload [] [] false
      (replaceMediaIds [] (.obj [("cover", unresolvedMedia)])
        ⟨emptyStore, [], []⟩).1 [("cover", Attr.media)]) "cover" = none := by
  have h0 : vGet (simplifyPayload [] [] false
      (replaceMediaIds [] (.obj [("cover", unresolvedMedia)])
        ⟨emptyStore, [], []⟩).1 [("cover", Attr.media)]) "cover" =
      some Value.null := by
    rw [show unresolvedMedia = Value.obj [("id", .num 5),
      ("mime", .str "image/png"), ("url", .str "/uploads/c.png"),
      ("hash", .str "h1")] from rfl]
    exact (unresolved_media_null_aux [] [] false ⟨emptyStore, [], []⟩ []
      "cover" [("id", .num 5), ("mime", .str "image/png"),
               ("url", .str "/uploads/c.png"), ("hash", .str "h1")]
      { id := 5, hash := "h1", url := "/uploads/c.png", formats := [] }
      [("cover", Attr.media)] (by decide) rfl rfl rfl (by decide) rfl).1
  exact ⟨h0, fun h => Option.noConfusion (h0.symm.trans h)⟩

/-- C8 (amended).  An unresolvable media reference (no mapping, no
content-hash match, no source file) is not omitted from the normalized
payload: `replaceMediaIds` writes `null` in its place, and the media
branch of `simplifyPayload` copies the value verbatim — so a
single-valued media field is written as `null` and an unresolved array
element is kept as a `null` element (relation fields, by contrast, are
dropped). -/
theorem unresolved_media_written_null (comps : List (String × Schema))
    (entries : List StoreEntry) (strip : Bool) (r : RunSt)
    (src : List String) (key : String) (mfs : List (String × Value))
    (m : MediaRef) (attrs : Schema)
    (hkey : key ≠ "id")
    (hm : mediaRefOf mfs = some m)
    (hmap : mapGet r.map m.id = none)
    (hhash : findAssetByHash r.store.assets m.hash = none)
    (hfile : basename m.url ∉ src)
    (hattr : lookupAttr attrs key = some .media) :
    vGet (simplifyPayload comps entries strip
      (replaceMediaIds src (.obj [(key, .obj mfs)]) r).1 attrs) key =
      some .null ∧
    vGet (simplifyPayload comps entries strip
      (replaceMediaIds src (.obj [(key, .arr [.obj mfs])]) r).1 attrs) key =
      some (.arr [.null]) :=
  unresolved_media_null_aux comps entries strip r src key mfs m attrs
    hkey hm hmap hhash hfile hattr

/-- Witness for C8 (amended) at concrete inputs: the unresolvable media
object of hash `h1` is written as `null` into a single-valued field and
kept as a `null` array element. -/
theorem unresolved_media_written_null_witness :
    vGet (simplifyPayload [] [] false
      (replaceMediaIds [] (.obj [("photo",
        .obj [("id", .num 5), ("mime", .str "image/png"),
              ("url", .str "/uploads/c.png"), ("hash", .str "h1")])])
        ⟨emptyStore, [], []⟩).1 [("photo", Attr.media)]) "photo" =
      some Value.null ∧
    vGet (simplifyPayload [] [] false
      (replaceMediaIds [] (.obj [("photo",
        .arr [.obj [("id", .num 5), ("mime", .str "image/png"),
              ("url", .str "/uploads/c.png"), ("hash", .str "h1")]])])
        ⟨emptyStore, [], []⟩).1 [("photo", Attr.media)]) "photo" =
      some (.arr [.null]) := by
  exact unresolved_media_written_null [] [] false ⟨emptyStore, [], []⟩ []
    "photo" [("id", .num 5), ("mime", .str "image/png"),
             ("url", .str "/uploads/c.png"), ("hash", .str "h1")]
    { id := 5, hash := "h1", url := "/uploads/c.png", formats := [] }
    [("photo", Attr.media)] (by decide) rfl rfl rfl (by decide) rfl

/-- Both branches of the loaded import (clean-only and full import) end
with exit code 0. -/
theorem runImportLoaded_exit (env : ImportEnv) (opts : Options)
    (r : RunSt) : (runImportLoaded env opts r).1 = 0 := by
  unfold runImportLoaded
  by_cases hc : opts.clean = true
  · rw [if_pos hc]
  · rw [if_neg hc]

/-- Copying the exported source items never touches the destination
store. -/
theorem importSourceCode_store (items : List String) (opts : Options) :
    ∀ r : RunSt, (importSourceCode items opts r).store = r.store := by
  induction items with
  | nil => intro r; rfl
  | cons x rest ih =>
      intro r
      rw [show importSourceCode (x :: rest) opts r =
        importSourceCode rest opts (sourceCopyStep opts r x) from rfl]
      rw [ih]
      unfold sourceCopyStep
      by_cases hd : opts.dryRun = true
      · rw [if_pos hd]
      · rw [if_neg hd]

/-- Copying the exported source items only ever appends source-copy
operations to the trace. -/
theorem importSourceCode_ops (items : List String) (opts : Options) :
    ∀ r : RunSt, (∀ o ∈ r.ops, ∃ n, o = Op.copySource n) →
      ∀ o ∈ (importSourceCode items opts r).ops, ∃ n, o = Op.copySource n := by
  induction items with
  | nil => intro r h; exact h
  | cons x rest ih =>
      intro r h
      rw [show importSourceCode (x :: rest) opts r =
        importSourceCode rest opts (sourceCopyStep opts r x) from rfl]
      refine ih _ ?_
      intro o ho
      unfold sourceCopyStep at ho
      by_cases hd : opts.dryRun = true
      · rw [if_pos hd] at ho
        exact h o ho
      · rw [if_neg hd] at ho
        simp only [List.mem_append, List.mem_singleton] at ho
        rcases ho with ho | ho
        · exact h o ho
        · exact ⟨x, ho⟩

/-- The setup behaviour of `runImport`: the exit code is 0 or 1, it is 1
exactly on a setup failure, and an exit-1 run leaves the store untouched
with at most source-copy operations in its trace. -/
theorem runImport_setup (env : ImportEnv) (opts : Options) (s : Store) :
    ((runImport env opts s).1 = 0 ∨ (runImport env opts s).1 = 1) ∧
    ((runImport env opts s).1 = 1 ↔
      ((env.isUrl = true ∧ (!env.downloadOk) = true) ∨
       (!env.pathExists) = true ∨
       (env.isArchive = true ∧ (!env.extractOk) = true) ∨
       (env.isArchive = true ∧ (!env.archiveHasData) = true) ∨
       (!env.dataJsonPresent) = true ∨
       ((!env.strapiLoads) = true ∧
         ¬(opts.clean = true ∧ (!opts.skipSchema) = true ∧
           env.strapiLoadsAfterRepair = true)))) ∧
    ((runImport env opts s).1 = 1 →
      (runImport env opts s).2.store = s ∧
      ∀ o ∈ (runImport env opts s).2.ops, ∃ n, o = Op.copySource n) := by
  simp only [runImport]
  by_cases h1 : env.isUrl = true ∧ (!env.downloadOk) = true
  · rw [if_pos h1]
    exact ⟨Or.inr rfl, iff_of_true rfl (Or.inl h1),
      fun _ => ⟨rfl, by simp⟩⟩
  · rw [if_neg h1]
    by_cases h2 : (!env.pathExists) = true
    · rw [if_pos h2]
      exact ⟨Or.inr rfl, iff_of_true rfl (Or.inr (Or.inl h2)),
        fun _ => ⟨rfl, by simp⟩⟩
    · rw [if_neg h2]
      by_cases h3 : env.isArchive = true ∧ (!env.extractOk) = true
      · rw [if_pos h3]
        exact ⟨Or.inr rfl, iff_of_true rfl (Or.inr (Or.inr (Or.inl h3))),
          fun _ => ⟨rfl, by simp⟩⟩
      · rw [if_neg h3]
        by_cases h4 : env.isArchive = true ∧ (!env.archiveHasData) = true
        · rw [if_pos h4]
          exact ⟨Or.inr rfl,
            iff_of_true rfl (Or.inr (Or.inr (Or.inr (Or.inl h4)))),
            fun _ => ⟨rfl, by simp⟩⟩
        · rw [if_neg h4]
          by_cases h5 : (!env.dataJsonPresent) = true
          · rw [if_pos h5]
            exact ⟨Or.inr rfl,
              iff_of_true rfl
                (Or.inr (Or.inr (Or.inr (Or.inr (Or.inl h5))))),
              fun _ => ⟨rfl, by simp⟩⟩
          · rw [if_neg h5]
            by_cases h6 : env.strapiLoads = true
            · rw [if_pos h6]
              refine ⟨Or.inl (runImportLoaded_exit env opts _),
                iff_of_false (by simp [runImportLoaded_exit]) ?_,
                fun hcontra =>
                  absurd hcontra (by simp [runImportLoaded_exit])⟩
              rintro (d | d | d | d | d | ⟨d1, _⟩)
              · exact h1 d
              · exact h2 d
              · exact h3 d
              · exact h4 d
              · exact h5 d
              · rw [h6] at d1
                exact Bool.false_ne_true d1
            · rw [if_neg h6]
              by_cases h7 : opts.clean = true ∧ (!opts.skipSchema) = true
              · rw [if_pos h7]
                by_cases h8 : env.strapiLoadsAfterRepair = true
                · rw [if_pos h8]
                  refine ⟨Or.inl (runImportLoaded_exit env opts _),
                    iff_of_false (by simp [runImportLoaded_exit]) ?_,
                    fun hcontra =>
                      absurd hcontra (by simp [runImportLoaded_exit])⟩
                  rintro (d | d | d | d | d | ⟨_, d2⟩)
                  · exact h1 d
                  · exact h2 d
                  · exact h3 d
                  · exact h4 d
                  · exact h5 d
                  · exact d2 ⟨h7.1, h7.2, h8⟩
                · rw [if_neg h8]
                  refine ⟨Or.inr rfl,
                    iff_of_true rfl
                      (Or.inr (Or.inr (Or.inr (Or.inr (Or.inr
                        ⟨by simp [Bool.not_eq_true] at h6 ⊢; exact h6,
                         fun hin => h8 hin.2.2⟩))))),
                    fun _ => ?_⟩
                  have hc : ¬((!opts.clean) = true ∧
                      (!opts.skipSchema) = true) := by
                    simp [h7.1]
                  rw [if_neg hc]
                  refine ⟨?_, ?_⟩
                  · rw [importSourceCode_store]
                  · exact importSourceCode_ops env.sourceItems opts _
                      (by simp)
              · rw [if_neg h7]
                refine ⟨Or.inr rfl,
                  iff_of_true rfl
                    (Or.inr (Or.inr (Or.inr (Or.inr (Or.inr
                      ⟨by simp [Bool.not_eq_true] at h6 ⊢; exact h6,
                       fun hin => h7 ⟨hin.1, hin.2.1⟩⟩))))),
                  fun _ => ?_⟩
                by_cases h9 : (!opts.clean) = true ∧ (!opts.skipSchema) = true
                · rw [if_pos h9]
                  refine ⟨?_, ?_⟩
                  · rw [importSourceCode_store]
                  · exact importSourceCode_ops env.sourceItems opts _
                      (by simp)
                · rw [if_neg h9]
                  exact ⟨rfl, by simp⟩

/-- C9.  Exit codes and per-item recovery of the import process: the
exit code is always 0 or 1; it is 1 exactly on an unrecoverable setup
failure (failed download of a URL input, missing input path,
unextractable archive, archive without `data.json`, missing `data.json`,
or a destination store that fails to load even after the clean-mode
schema repair); an exit-1 run leaves the destination store untouched,
its trace holding at most the pre-boot source copies; the exit code
never depends on the per-item failure oracles; and a Phase-1 item whose
create call is rejected is skipped — no destination entry changes — while
the fold continues with the remaining items. -/
theorem runImport_exit_and_recovery (env : ImportEnv) (opts : Options)
    (s : Store) :
    ((runImport env opts s).1 = 0 ∨ (runImport env opts s).1 = 1) ∧
    ((runImport env opts s).1 = 1 ↔
      ((env.isUrl = true ∧ (!env.downloadOk) = true) ∨
       (!env.pathExists) = true ∨
       (env.isArchive = true ∧ (!env.extractOk) = true) ∨
       (env.isArchive = true ∧ (!env.archiveHasData) = true) ∨
       (!env.dataJsonPresent) = true ∨
       ((!env.strapiLoads) = true ∧
         ¬(opts.clean = true ∧ (!opts.skipSchema) = true ∧
           env.strapiLoadsAfterRepair = true)))) ∧
    ((runImport env opts s).1 = 1 →
      (runImport env opts s).2.store = s ∧
      ∀ o ∈ (runImport env opts s).2.ops, ∃ n, o = Op.copySource n) ∧
    (∀ f2 : Failures,
      (runImport { env with fail := f2 } opts s).1 =
        (runImport env opts s).1) ∧
    (∀ (uid : String) (ct : CT) (r : RunSt)
       (item : List (String × Value))
       (rest : List (List (String × Value))),
      env.fail.createEntry uid item = true →
      phase1Item env uid ct r item = (phase1Prep env ct r item).2 ∧
      (phase1Item env uid ct r item).store.entries = r.store.entries ∧
      List.foldl (phase1Item env uid ct) r (item :: rest) =
        List.foldl (phase1Item env uid ct)
          (phase1Item env uid ct r item) rest) := by
  obtain ⟨hcases, hiff, hone⟩ := runImport_setup env opts s
  refine ⟨hcases, hiff, hone, ?_, ?_⟩
  · intro f2
    obtain ⟨hcases2, hiff2, _⟩ := runImport_setup { env with fail := f2 } opts s
    have key : (runImport { env with fail := f2 } opts s).1 = 1 ↔
        (runImport env opts s).1 = 1 := hiff2.trans hiff.symm
    rcases hcases2 with g0 | g1
    · rcases hcases with k0 | k1
      · rw [g0, k0]
      · have := key.mpr k1
        omega
    · rw [g1, key.mp g1]
  · intro uid ct r item rest hfail
    have hskip : phase1Item env uid ct r item =
        (phase1Prep env ct r item).2 := by
      simp only [phase1Item]
      rw [if_pos hfail]
    have hent : ((phase1Prep env ct r item).2).store.entries =
        r.store.entries := by
      rw [show (phase1Prep env ct r item).2 =
        (replaceMediaIds env.srcFiles
          (.obj (stripKeys item phase1Keys)) r).2 from rfl]
      exact (replaceMedia_entries env.srcFiles).1 _ r
    refine ⟨hskip, ?_, rfl⟩
    rw [hskip]
    exact hent

/-- Witness for C9 at concrete inputs: a missing input path exits with
code 1 leaving the empty destination untouched, and a rejected Phase-1
create leaves the destination entries unchanged. -/
theorem runImport_exit_and_recovery_witness :
    (runImport failSetupEnv ⟨false, false, false, false⟩ emptyStore).1 = 1 ∧
    (runImport failSetupEnv ⟨false, false, false, false⟩
      emptyStore).2.store = emptyStore ∧
    (phase1Item failSetupEnv "api::post.post" postCT sampleRun
      sampleItem).store.entries = sampleRun.store.entries := by
  have h := runImport_exit_and_recovery failSetupEnv
    ⟨false, false, false, false⟩ emptyStore
  have h1 : (runImport failSetupEnv ⟨false, false, false, false⟩
      emptyStore).1 = 1 :=
    h.2.1.mpr (Or.inr (Or.inl (by decide)))
  exact ⟨h1, (h.2.2.1 h1).1,
    (h.2.2.2.2 "api::post.post" postCT sampleRun sampleItem [] rfl).2.1⟩

/-- A fold whose step fixes a projection fixes it globally (membership
form). -/
theorem foldl_fix_mem {α β γ : Type _} (g : α → γ) (f : α → β → α) :
    ∀ l : List β, (∀ a, ∀ b ∈ l, g (f a b) = g a) →
      ∀ r : α, g (l.foldl f r) = g r := by
  intro l
  induction l with
  | nil => intro _ r; rfl
  | cons x xs ih =>
      intro h r
      rw [List.foldl_cons,
        ih (fun a b hb => h a b (List.mem_cons_of_mem x hb)) (f r x),
        h r x (List.mem_cons_self x xs)]

/-- A fold whose step is the identity on its members is the identity. -/
theorem foldl_id_mem {α β : Type _} :
    ∀ (l : List β) (f : α → β → α), (∀ a, ∀ b ∈ l, f a b = a) →
      ∀ r : α, l.foldl f r = r := by
  intro l
  induction l with
  | nil => intro _ _ r; rfl
  | cons x xs ih =>
      intro f h r
      rw [List.foldl_cons, h r x (List.mem_cons_self x xs)]
      exact ih f (fun a b hb => h a b (List.mem_cons_of_mem x hb)) r

/-- One bulk media iteration never touches the entries table. -/
theorem importMediaStep_entries (src : List String) (cf : Int → Bool)
    (r : RunSt) (f : MediaRef) :
    (importMediaStep src cf r f).store.entries = r.store.entries := by
  unfold importMediaStep
  split
  · rfl
  · dsimp only
    split
    · split
      · rw [(copyFormats_store src f.formats _).2.2.2]
        exact (copyPrimary_store r _).2.2.2
      · rw [createAssetRecord_entries,
          (copyFormats_store src f.formats _).2.2.2]
        exact (copyPrimary_store r _).2.2.2
    · rfl

/-- See `importMediaStep_entries` (with the dry-run guard). -/
theorem mediaStep_entries (opts : Options) (src : List String)
    (cf : Int → Bool) (r : RunSt) (f : MediaRef) :
    (mediaStep opts src cf r f).store.entries = r.store.entries := by
  unfold mediaStep
  split
  · rfl
  · exact importMediaStep_entries src cf r f

/-- The bulk media pre-pass never touches the entries table. -/
theorem importMedia_entries (opts : Options) (src : List String)
    (cf : Int → Bool) (r : RunSt) (l : List MediaRef) :
    (importMedia opts src cf r l).store.entries = r.store.entries :=
  foldl_fix_mem (fun rr => rr.store.entries) _ l
    (fun a b _ => mediaStep_entries opts src cf a b) r

/-- A view upsert never touches the entries table. -/
theorem viewStep_entries (env : ImportEnv) (opts : Options) (r : RunSt)
    (p : String × Value) :
    (viewStep env opts r p).store.entries = r.store.entries := by
  unfold viewStep
  split
  · rfl
  · split
    · rfl
    · dsimp only
      split
      · rfl
      · rfl

/-- The view phase never touches the entries table. -/
theorem importViews_entries (env : ImportEnv) (opts : Options)
    (r : RunSt) :
    (importViews env opts r).store.entries = r.store.entries :=
  foldl_fix_mem (fun rr => rr.store.entries) _ env.manifest.views
    (fun a b _ => viewStep_entries env opts a b) r

/-- A locale creation never touches the entries table. -/
theorem localeStep_entries (r : RunSt) (code : String) :
    (localeStep r code).store.entries = r.store.entries := by
  unfold localeStep
  split
  · rfl
  · split
    · rfl
    · rfl

/-- The locale phase never touches the entries table. -/
theorem ensureLocales_entries (env : ImportEnv) (r : RunSt) :
    (ensureLocales env r).store.entries = r.store.entries :=
  foldl_fix_mem (fun rr => rr.store.entries) _ env.manifest.locales
    (fun a b _ => localeStep_entries a b) r

/-- Updating a document variant in place keeps the table's lookup keys
unchanged. -/
theorem updateRows_keys (s : Store) (uid d : String) (loc : Option String)
    (payload : Value) (pub : Bool) :
    (updateRows s uid d loc payload pub).entries.map entryKey =
      s.entries.map entryKey := by
  unfold updateRows
  rw [List.map_map]
  apply List.map_congr_left
  intro e _
  by_cases h : e.uid = uid ∧ e.documentId = d ∧ e.locale = loc
  · simp [Function.comp, h, entryKey]
  · simp [Function.comp, h, entryKey]

/-- Publishing a document variant keeps the table's lookup keys
unchanged. -/
theorem publishRows_keys (s : Store) (uid d : String)
    (loc : Option String) :
    (publishRows s uid d loc).entries.map entryKey =
      s.entries.map entryKey := by
  unfold publishRows
  rw [List.map_map]
  apply List.map_congr_left
  intro e _
  by_cases h : e.uid = uid ∧ e.documentId = d ∧ e.locale = loc
  · simp [Function.comp, h, entryKey]
  · simp [Function.comp, h, entryKey]

/-- Creating a document appends exactly one lookup key: the supplied
stable identifier (or the generated one) with the supplied locale. -/
theorem createRow_keys (s : Store) (uid : String) (dopt : Option String)
    (loc : Option String) (pub : Bool) (payload : Value) :
    (createRow s uid dopt loc pub payload).entries.map entryKey =
      s.entries.map entryKey ++
        [(uid,
          (match dopt with
           | some x => x
           | none => "generated-" ++ toString s.nextRowId), loc)] := by
  unfold createRow
  simp [entryKey]

/-- The Phase-1 lookup succeeds exactly when the addressed (content
type, documentId, locale) key is present in the destination table. -/
theorem findDraft_isSome_iff (s : Store) (uid d : String)
    (loc : Option String) :
    (findDraft s uid d loc).isSome ↔
      (uid, d, loc) ∈ s.entries.map entryKey := by
  unfold findDraft
  rw [List.find?_isSome]
  constructor
  · rintro ⟨e, he, hp⟩
    simp only [decide_eq_true_eq] at hp
    exact List.mem_map.2 ⟨e, he, by
      simp [entryKey, hp.1, hp.2.1, hp.2.2]⟩
  · intro hk
    rcases List.mem_map.1 hk with ⟨e, he, hke⟩
    refine ⟨e, he, ?_⟩
    simp only [decide_eq_true_eq]
    simp only [entryKey, Prod.mk.injEq] at hke
    exact ⟨hke.1, hke.2.1, hke.2.2⟩

/-- A manifest media item whose content hash already exists at the
destination is mapped to the existing asset's id: no copy, no new asset
record, no other state change. -/
theorem importMediaStep_dedup (src : List String) (cf : Int → Bool)
    (r : RunSt) (f : MediaRef) (existing : Asset)
    (h : findAssetByHash r.store.assets f.hash = some existing) :
    importMediaStep src cf r f =
      { r with map := (f.id, existing.id) :: r.map } := by
  unfold importMediaStep
  rw [h]

/-- The Phase-1 normalization prefix never touches the entries table. -/
theorem phase1Prep_entries (env : ImportEnv) (ct : CT) (r : RunSt)
    (item : List (String × Value)) :
    (phase1Prep env ct r item).2.store.entries = r.store.entries := by
  rw [show (phase1Prep env ct r item).2 =
    (replaceMediaIds env.srcFiles
      (.obj (stripKeys item phase1Keys)) r).2 from rfl]
  exact (replaceMedia_entries env.srcFiles).1 _ r

/-- One Phase-1 item never removes a lookup key from the destination
table. -/
theorem phase1Item_keys_mono (env : ImportEnv) (uid : String) (ct : CT)
    (r : RunSt) (item : List (String × Value)) :
    ∀ k ∈ r.store.entries.map entryKey,
      k ∈ (phase1Item env uid ct r item).store.entries.map entryKey := by
  intro k hk
  have hr1 := phase1Prep_entries env ct r item
  by_cases hfail : env.fail.createEntry uid item = true
  · have hskip : phase1Item env uid ct r item =
        (phase1Prep env ct r item).2 := by
      simp only [phase1Item]
      rw [if_pos hfail]
    rw [hskip, hr1]
    exact hk
  · have hfalse : env.fail.createEntry uid item = false := by
      simpa using hfail
    rcases hd : getStrField item "documentId" with _ | d
    · simp only [phase1Item, hd, hfalse, Bool.false_eq_true, if_false]
      rw [createRow_keys, hr1]
      exact List.mem_append_left _ hk
    · rcases hf : findDraft (phase1Prep env ct r item).2.store uid d
          (localeOf (stripKeys item phase1Keys)) with _ | e
      · simp only [phase1Item, hd, hfalse, hf, Bool.false_eq_true, if_false]
        rw [createRow_keys, hr1]
        exact List.mem_append_left _ hk
      · simp only [phase1Item, hd, hfalse, hf, Bool.false_eq_true, if_false]
        rw [updateRows_keys, hr1]
        exact hk

/-- A successful Phase-1 item leaves its (content type, documentId,
locale) key present in the destination table — created when absent,
updated in place when present. -/
theorem phase1Item_est (env : ImportEnv) (uid : String) (ct : CT)
    (r : RunSt) (item : List (String × Value)) (d : String)
    (hd : getStrField item "documentId" = some d)
    (hok : env.fail.createEntry uid item = false) :
    (uid, d, localeOf (stripKeys item phase1Keys)) ∈
      (phase1Item env uid ct r item).store.entries.map entryKey := by
  have hr1 := phase1Prep_entries env ct r item
  rcases hf : findDraft (phase1Prep env ct r item).2.store uid d
      (localeOf (stripKeys item phase1Keys)) with _ | e
  · simp only [phase1Item, hd, hok, hf, Bool.false_eq_true, if_false]
    rw [createRow_keys]
    exact List.mem_append_right _ (by simp)
  · simp only [phase1Item, hd, hok, hf, Bool.false_eq_true, if_false]
    rw [updateRows_keys]
    have hs : (findDraft (phase1Prep env ct r item).2.store uid d
        (localeOf (stripKeys item phase1Keys))).isSome := by
      rw [hf]; rfl
    exact (findDraft_isSome_iff _ _ _ _).1 hs

/-- A Phase-1 item whose key is already present takes the update branch
(or is skipped): the destination table's keys are unchanged. -/
theorem phase1Item_keys_update (env : ImportEnv) (uid : String) (ct : CT)
    (r : RunSt) (item : List (String × Value)) (d : String)
    (hd : getStrField item "documentId" = some d)
    (hk : (uid, d, localeOf (stripKeys item phase1Keys)) ∈
      r.store.entries.map entryKey) :
    (phase1Item env uid ct r item).store.entries.map entryKey =
      r.store.entries.map entryKey := by
  have hr1 := phase1Prep_entries env ct r item
  by_cases hfail : env.fail.createEntry uid item = true
  · have hskip : phase1Item env uid ct r item =
        (phase1Prep env ct r item).2 := by
      simp only [phase1Item]
      rw [if_pos hfail]
    rw [hskip, hr1]
  · have hfalse : env.fail.createEntry uid item = false := by
      simpa using hfail
    have hs : (findDraft (phase1Prep env ct r item).2.store uid d
        (localeOf (stripKeys item phase1Keys))).isSome := by
      rw [findDraft_isSome_iff, hr1]
      exact hk
    rcases Option.isSome_iff_exists.1 hs with ⟨e, hf⟩
    simp only [phase1Item, hd, hfalse, hf, Bool.false_eq_true, if_false]
    rw [updateRows_keys, hr1]

/-- One Phase-2 item keeps the destination table's keys unchanged: it
only updates or publishes existing variants. -/
theorem phase2Item_keys (env : ImportEnv) (uid : String) (ct : CT)
    (r : RunSt) (item : List (String × Value)) :
    (phase2Item env uid ct r item).store.entries.map entryKey =
      r.store.entries.map entryKey := by
  rcases hd : getStrField item "documentId" with _ | d
  · simp only [phase2Item, hd]
  · rcases hrm : replaceMediaIds env.srcFiles
        (.obj (stripKeys item ["documentId"])) r with ⟨mc, r1⟩
    have hr1 : r1.store.entries = r.store.entries := by
      have := (replaceMedia_entries env.srcFiles).1
        (.obj (stripKeys item ["documentId"])) r
      rw [hrm] at this
      exact this
    simp only [phase2Item, hd, hrm]
    by_cases hfl : env.fail.linkEntry uid item = true
    · rw [if_pos hfl, hr1]
    · rw [if_neg hfl]
      rcases hfd : findDraft r1.store uid d
          (localeOf (stripKeys item ["documentId"])) with _ | e
      · rw [hr1]
      · dsimp only
        by_cases hp : truthyOpt (jsGet (stripKeys item ["documentId"])
            "publishedAt") = true ∧ ct.draftAndPublish = true
        · rw [if_pos hp]
          show (publishRows (updateRows r1.store uid d _ _ false)
            uid d _).entries.map entryKey = _
          rw [publishRows_keys, updateRows_keys, hr1]
        · rw [if_neg hp]
          show (updateRows r1.store uid d _ _ false).entries.map
            entryKey = _
          rw [updateRows_keys, hr1]

/-- One PASS-2 type keeps the destination table's keys unchanged. -/
theorem phase2Step_keys (env : ImportEnv) (opts : Options) (acc : RunSt)
    (p : String × List (List (String × Value))) :
    (phase2Step env opts acc p).store.entries.map entryKey =
      acc.store.entries.map entryKey := by
  unfold phase2Step
  split
  · rfl
  · split
    · rfl
    · split
      · rfl
      · exact foldl_fix_mem (fun rr => rr.store.entries.map entryKey) _
          p.2 (fun a b _ => phase2Item_keys env p.1 _ a b) acc

/-- PASS 2 keeps the destination table's keys unchanged. -/
theorem phase2_keys (env : ImportEnv) (opts : Options) (r : RunSt) :
    (phase2 env opts r).store.entries.map entryKey =
      r.store.entries.map entryKey :=
  foldl_fix_mem (fun rr => rr.store.entries.map entryKey) _
    env.manifest.types (fun a b _ => phase2Step_keys env opts a b) r

/-- A manifest type registered as a collection type (or not registered)
is skipped by the single-type pass. -/
theorem singleStep_skip (env : ImportEnv) (opts : Options) (acc : RunSt)
    (p : String × List (List (String × Value)))
    (h : ∀ ct, jsGetCT env.registry p.1 = some ct → ct.single = false) :
    singleStep env opts acc p = acc := by
  unfold singleStep
  rcases hct : jsGetCT env.registry p.1 with _ | ct
  · rfl
  · simp [h ct hct]

/-- With every registered manifest type a collection type, the
single-type pass is the identity. -/
theorem singleTypesImport_skip (env : ImportEnv) (opts : Options)
    (r : RunSt)
    (h : ∀ p ∈ env.manifest.types, ∀ ct,
      jsGetCT env.registry p.1 = some ct → ct.single = false) :
    singleTypesImport env opts r = r :=
  foldl_id_mem env.manifest.types _
    (fun a p hp => singleStep_skip env opts a p (h p hp)) r

/-- The PASS-1 item fold never removes a lookup key. -/
theorem phase1_fold_mono (env : ImportEnv) (uid : String) (ct : CT) :
    ∀ (items : List (List (String × Value))) (r : RunSt) (k),
      k ∈ r.store.entries.map entryKey →
      k ∈ (items.foldl (phase1Item env uid ct) r).store.entries.map
        entryKey := by
  intro items
  induction items with
  | nil => intro r k hk; exact hk
  | cons x xs ih =>
      intro r k hk
      rw [List.foldl_cons]
      exact ih _ k (phase1Item_keys_mono env uid ct r x k hk)

/-- After the PASS-1 item fold, every successful item's key is present
in the destination table. -/
theorem phase1_fold_est (env : ImportEnv) (uid : String) (ct : CT) :
    ∀ (items : List (List (String × Value))) (r : RunSt) (item)
      (_ : item ∈ items) (d)
      (_ : getStrField item "documentId" = some d)
      (_ : env.fail.createEntry uid item = false),
      (uid, d, localeOf (stripKeys item phase1Keys)) ∈
        (items.foldl (phase1Item env uid ct) r).store.entries.map
          entryKey := by
  intro items
  induction items with
  | nil => intro r item hmem; cases hmem
  | cons x xs ih =>
      intro r item hmem d hd hok
      rw [List.foldl_cons]
      rcases List.mem_cons.1 hmem with rfl | hmem'
      · exact phase1_fold_mono env uid ct xs _ _
          (phase1Item_est env uid ct r item d hd hok)
      · exact ih _ item hmem' d hd hok

/-- The PASS-1 item fold over items whose keys are all already present
keeps the destination table's keys unchanged: every item takes the
update branch. -/
theorem phase1_fold_update (env : ImportEnv) (uid : String) (ct : CT) :
    ∀ (items : List (List (String × Value))) (r : RunSt),
      (∀ item ∈ items, ∃ d, getStrField item "documentId" = some d ∧
        (uid, d, localeOf (stripKeys item phase1Keys)) ∈
          r.store.entries.map entryKey) →
      (items.foldl (phase1Item env uid ct) r).store.entries.map
          entryKey =
        r.store.entries.map entryKey := by
  intro items
  induction items with
  | nil => intro r _; rfl
  | cons x xs ih =>
      intro r h
      rw [List.foldl_cons]
      obtain ⟨d, hd, hk⟩ := h x (List.mem_cons_self x xs)
      have hx : (phase1Item env uid ct r x).store.entries.map entryKey =
          r.store.entries.map entryKey :=
        phase1Item_keys_update env uid ct r x d hd hk
      have hrest := ih (phase1Item env uid ct r x) (fun item hmem => by
        obtain ⟨d', hd', hk'⟩ := h item (List.mem_cons_of_mem x hmem)
        exact ⟨d', hd', by rw [hx]; exact hk'⟩)
      rw [hrest, hx]

/-- One PASS-1 type never removes a lookup key. -/
theorem phase1Step_keys_mono (env : ImportEnv) (opts : Options)
    (acc : RunSt) (p : String × List (List (String × Value))) :
    ∀ k ∈ acc.store.entries.map entryKey,
      k ∈ (phase1Step env opts acc p).store.entries.map entryKey := by
  intro k hk
  unfold phase1Step
  split
  · exact hk
  · split
    · exact hk
    · split
      · exact hk
      · exact phase1_fold_mono env p.1 _ p.2 acc k hk

/-- The PASS-1 type fold never removes a lookup key. -/
theorem phase1_types_mono (env : ImportEnv) (opts : Options) :
    ∀ (types : List (String × List (List (String × Value))))
      (r : RunSt) (k), k ∈ r.store.entries.map entryKey →
      k ∈ (types.foldl (phase1Step env opts) r).store.entries.map
        entryKey := by
  intro types
  induction types with
  | nil => intro r k hk; exact hk
  | cons q qs ih =>
      intro r k hk
      rw [List.foldl_cons]
      exact ih _ k (phase1Step_keys_mono env opts r q k hk)

/-- After the PASS-1 type fold, every successful item of a registered
collection type has its key present in the destination table. -/
theorem phase1_types_est (env : ImportEnv) (opts : Options)
    (hdry : opts.dryRun = false) :
    ∀ (types : List (String × List (List (String × Value))))
      (r : RunSt) (p) (_ : p ∈ types) (ct)
      (_ : jsGetCT env.registry p.1 = some ct) (_ : ct.single = false)
      (item) (_ : item ∈ p.2) (d)
      (_ : getStrField item "documentId" = some d)
      (_ : env.fail.createEntry p.1 item = false),
      (p.1, d, localeOf (stripKeys item phase1Keys)) ∈
        (types.foldl (phase1Step env opts) r).store.entries.map
          entryKey := by
  intro types
  induction types with
  | nil => intro r p hp; cases hp
  | cons q qs ih =>
      intro r p hp ct hct hns item hitem d hd hok
      rw [List.foldl_cons]
      rcases List.mem_cons.1 hp with rfl | hp'
      · refine phase1_types_mono env opts qs _ _ ?_
        have hstep : phase1Step env opts r p =
            p.2.foldl (phase1Item env p.1 ct) r := by
          simp only [phase1Step, hdry, hct, hns, Bool.false_eq_true,
            if_false]
        rw [hstep]
        exact phase1_fold_est env p.1 ct p.2 r item hitem d hd hok
      · exact ih _ p hp' ct hct hns item hitem d hd hok

/-- The PASS-1 type fold over a manifest whose items' keys are all
present keeps the destination table's keys unchanged. -/
theorem phase1_types_update (env : ImportEnv) (opts : Options) :
    ∀ (types : List (String × List (List (String × Value))))
      (r : RunSt),
      (∀ p ∈ types, ∀ ct, jsGetCT env.registry p.1 = some ct →
        ct.single = false →
        ∀ item ∈ p.2, ∃ d, getStrField item "documentId" = some d ∧
          (p.1, d, localeOf (stripKeys item phase1Keys)) ∈
            r.store.entries.map entryKey) →
      (types.foldl (phase1Step env opts) r).store.entries.map entryKey =
        r.store.entries.map entryKey := by
  intro types
  induction types with
  | nil => intro r _; rfl
  | cons q qs ih =>
      intro r h
      rw [List.foldl_cons]
      have hq : (phase1Step env opts r q).store.entries.map entryKey =
          r.store.entries.map entryKey := by
        unfold phase1Step
        by_cases hdry : opts.dryRun = true
        · rw [if_pos hdry]
        · rw [if_neg hdry]
          rcases hct : jsGetCT env.registry q.1 with _ | ct
          · rfl
          · dsimp only
            by_cases hs : ct.single = true
            · rw [if_pos hs]
            · rw [if_neg hs]
              refine phase1_fold_update env q.1 ct q.2 r ?_
              exact h q (List.mem_cons_self q qs) ct hct
                (by simpa using hs)
      have hrest := ih (phase1Step env opts r q) (fun p hp ct hct hns => by
        intro item hmem
        obtain ⟨d', hd', hk'⟩ :=
          h p (List.mem_cons_of_mem q hp) ct hct hns item hmem
        exact ⟨d', hd', by rw [hq]; exact hk'⟩)
      rw [hrest, hq]

/-- After a loaded (non-clean) import run, every successful item of a
registered collection type has its key present in the destination
table. -/
theorem runImportLoaded_keys_est (env : ImportEnv) (opts : Options)
    (r : RunSt) (hclean : opts.clean = false)
    (hdry : opts.dryRun = false)
    (hsingle : ∀ p ∈ env.manifest.types, ∀ ct,
      jsGetCT env.registry p.1 = some ct → ct.single = false)
    (p : String × List (List (String × Value)))
    (hp : p ∈ env.manifest.types) (ct : CT)
    (hct : jsGetCT env.registry p.1 = some ct)
    (item : List (String × Value)) (hitem : item ∈ p.2) (d : String)
    (hd : getStrField item "documentId" = some d)
    (hok : env.fail.createEntry p.1 item = false) :
    (p.1, d, localeOf (stripKeys item phase1Keys)) ∈
      (runImportLoaded env opts r).2.store.entries.map entryKey := by
  unfold runImportLoaded
  rw [if_neg (by simp [hclean])]
  dsimp only
  rw [singleTypesImport_skip env opts _ hsingle, phase2_keys]
  unfold phase1
  exact phase1_types_est env opts hdry env.manifest.types _ p hp ct hct
    (hsingle p hp ct hct) item hitem d hd hok

/-- A loaded (non-clean) import run over a manifest whose items' keys
are all already present keeps the destination table's keys unchanged:
nothing is created. -/
theorem runImportLoaded_keys_update (env : ImportEnv) (opts : Options)
    (r : RunSt) (hclean : opts.clean = false)
    (_hdry : opts.dryRun = false)
    (hsingle : ∀ p ∈ env.manifest.types, ∀ ct,
      jsGetCT env.registry p.1 = some ct → ct.single = false)
    (h : ∀ p ∈ env.manifest.types, ∀ ct,
      jsGetCT env.registry p.1 = some ct → ct.single = false →
      ∀ item ∈ p.2, ∃ d, getStrField item "documentId" = some d ∧
        (p.1, d, localeOf (stripKeys item phase1Keys)) ∈
          r.store.entries.map entryKey) :
    (runImportLoaded env opts r).2.store.entries.map entryKey =
      r.store.entries.map entryKey := by
  unfold runImportLoaded
  rw [if_neg (by simp [hclean])]
  dsimp only
  rw [singleTypesImport_skip env opts _ hsingle, phase2_keys]
  generalize hgen : ensureLocales env (importViews env opts
      (if (!env.manifest.media.isEmpty) = true
       then importMedia opts env.srcFiles env.fail.mediaCreate r
         env.manifest.media
       else r)) = r3
  have hr3 : r3.store.entries = r.store.entries := by
    rw [← hgen, ensureLocales_entries, importViews_entries]
    by_cases hm : (!env.manifest.media.isEmpty) = true
    · rw [if_pos hm, importMedia_entries]
    · rw [if_neg hm]
  unfold phase1
  rw [phase1_types_update env opts env.manifest.types r3
    (fun p hp ct hct hns item hmem => by
      obtain ⟨d', hd', hk'⟩ := h p hp ct hct hns item hmem
      refine ⟨d', hd', ?_⟩
      rw [hr3]
      exact hk')]
  rw [hr3]

/-- With the input resolved and the store booted, `runImport` is the
loaded run on a state carrying the unchanged destination store. -/
theorem runImport_loaded_store (env : ImportEnv) (opts : Options)
    (s : Store)
    (hdl : env.downloadOk = true) (hpe : env.pathExists = true)
    (hex : env.extractOk = true) (had : env.archiveHasData = true)
    (hdj : env.dataJsonPresent = true) (hsl : env.strapiLoads = true) :
    ∃ r1 : RunSt, r1.store = s ∧
      runImport env opts s = runImportLoaded env opts r1 := by
  refine ⟨if (!opts.clean) = true ∧ (!opts.skipSchema) = true
          then importSourceCode env.sourceItems opts ⟨s, [], []⟩
          else ⟨s, [], []⟩, ?_, ?_⟩
  · by_cases hc : (!opts.clean) = true ∧ (!opts.skipSchema) = true
    · rw [if_pos hc, importSourceCode_store]
    · rw [if_neg hc]
  · simp only [runImport]
    rw [if_neg (by simp [hdl]), if_neg (by simp [hpe]),
        if_neg (by simp [hex]), if_neg (by simp [had]),
        if_neg (by simp [hdj]), if_pos hsl]

/-- C3.  Importing the same manifest twice against the same destination
creates no duplicates: the second run's destination table carries
exactly the first run's lookup keys (so no entry is created); for every
manifest item of a registered collection type, the second run's Phase-1
lookup by (stable identifier, locale) finds the entry left by the first
run; and a manifest media item whose content hash already exists at the
destination is mapped to the existing asset's id with no new asset
record created.  (Hypotheses: the input resolves and the store boots,
no clean/dry-run mode, no per-item failures, every item carries a
stable identifier, and every registered manifest type is a collection
type.) -/
theorem import_twice_no_duplicates (env : ImportEnv) (opts : Options)
    (s : Store)
    (hdl : env.downloadOk = true) (hpe : env.pathExists = true)
    (hex : env.extractOk = true) (had : env.archiveHasData = true)
    (hdj : env.dataJsonPresent = true) (hsl : env.strapiLoads = true)
    (hclean : opts.clean = false) (hdry : opts.dryRun = false)
    (hfail : env.fail = noFailures)
    (hdocs : ∀ p ∈ env.manifest.types, ∀ item ∈ p.2,
      ∃ d, getStrField item "documentId" = some d)
    (hsingle : ∀ p ∈ env.manifest.types, ∀ ct,
      jsGetCT env.registry p.1 = some ct → ct.single = false) :
    ((runImport env opts
        ((runImport env opts s).2.store)).2.store.entries.map entryKey =
      ((runImport env opts s).2.store).entries.map entryKey) ∧
    (∀ p ∈ env.manifest.types, ∀ ct,
      jsGetCT env.registry p.1 = some ct →
      ∀ item ∈ p.2, ∀ d, getStrField item "documentId" = some d →
        (findDraft ((runImport env opts s).2.store) p.1 d
          (localeOf (stripKeys item phase1Keys))).isSome) ∧
    (∀ (r : RunSt) (f : MediaRef) (existing : Asset),
      findAssetByHash r.store.assets f.hash = some existing →
        importMediaStep env.srcFiles env.fail.mediaCreate r f =
          { r with map := (f.id, existing.id) :: r.map }) := by
  obtain ⟨r1, hr1s, heq1⟩ :=
    runImport_loaded_store env opts s hdl hpe hex had hdj hsl
  have hkeys1 : ∀ p ∈ env.manifest.types, ∀ ct,
      jsGetCT env.registry p.1 = some ct →
      ∀ item ∈ p.2, ∀ d, getStrField item "documentId" = some d →
        (p.1, d, localeOf (stripKeys item phase1Keys)) ∈
          ((runImport env opts s).2.store).entries.map entryKey := by
    intro p hp ct hct item hitem d hd
    rw [heq1]
    exact runImportLoaded_keys_est env opts r1 hclean hdry hsingle p hp
      ct hct item hitem d hd (by rw [hfail]; rfl)
  refine ⟨?_, ?_, ?_⟩
  · obtain ⟨r2, hr2s, heq2⟩ := runImport_loaded_store env opts
      ((runImport env opts s).2.store) hdl hpe hex had hdj hsl
    rw [heq2]
    rw [runImportLoaded_keys_update env opts r2 hclean hdry hsingle
      (fun p hp ct hct hns item hmem => by
        obtain ⟨d, hd⟩ := hdocs p hp item hmem
        refine ⟨d, hd, ?_⟩
        rw [show r2.store.entries =
          ((runImport env opts s).2.store).entries from by rw [hr2s]]
        exact hkeys1 p hp ct hct item hmem d hd)]
    rw [hr2s]
  · intro p hp ct hct item hitem d hd
    rw [findDraft_isSome_iff]
    exact hkeys1 p hp ct hct item hitem d hd
  · intro r f existing h
    exact importMediaStep_dedup env.srcFiles env.fail.mediaCreate r f
      existing h

/-- Witness for C3 at concrete inputs: importing `sampleEnv`'s manifest
twice into an empty destination leaves the second run's table keys
identical to the first run's, and the second run's Phase-1 lookup of
`(p1, en)` succeeds. -/
theorem import_twice_no_duplicates_witness :
    ((runImport sampleEnv ⟨false, false, false, false⟩
        ((runImport sampleEnv ⟨false, false, false, false⟩
          emptyStore).2.store)).2.store.entries.map entryKey =
      ((runImport sampleEnv ⟨false, false, false, false⟩
        emptyStore).2.store).entries.map entryKey) ∧
    (findDraft ((runImport sampleEnv ⟨false, false, false, false⟩
        emptyStore).2.store) "api::post.post" "p1"
      (localeOf (stripKeys sampleItem phase1Keys))).isSome := by
  have h := import_twice_no_duplicates sampleEnv
    ⟨false, false, false, false⟩ emptyStore rfl rfl rfl rfl rfl rfl rfl
    rfl rfl
    (by
      intro p hp item hitem
      have hp' : p ∈ [("api::post.post", [sampleItem])] := hp
      rw [List.mem_singleton] at hp'
      subst hp'
      have hitem' : item ∈ [sampleItem] := hitem
      rw [List.mem_singleton] at hitem'
      subst hitem'
      exact ⟨"p1", rfl⟩)
    (by
      intro p hp ct hct
      have hp' : p ∈ [("api::post.post", [sampleItem])] := hp
      rw [List.mem_singleton] at hp'
      subst hp'
      have h2 : some postCT = some ct := by
        rw [← hct]
        rfl
      injection h2 with h3
      rw [← h3]
      rfl)
  refine ⟨h.1, ?_⟩
  exact h.2.1 ("api::post.post", [sampleItem])
    (List.mem_singleton.2 rfl) postCT rfl sampleItem
    (List.mem_singleton.2 rfl) "p1" rfl

end StrapiMigrate

